import Mathlib

/-!
# Verification of the mcp-cli translation and comparison pipeline

Shallow embedding of the core of the `mcp-cli` repository (Go): the
environment resolver (`expandEnvVars`, `loadEnvVars`), the profile filter
(`filterServers`), remote-server classification and auth resolution
(`IsRemoteServer`, `UsesHeadersAuth`, `ValidateRemoteServerAuth`,
`ExtractHeaders`, `ExtractOAuthConfig`), the config translator
(`convertToMCPConfig` and the `set` pipeline), and the status comparator
(`compareServerConfig`, `getServerStatus`, `getToolConfigs`).

Go strings are modelled as `List Char` (`Str`); Go maps are modelled as
association lists with Go's assignment semantics (`insertAL`: overwrite the
existing key in place, else append), which keeps the iteration order of the
model explicit.  Where a Go function iterates over a map, the model iterates
over the list, so map-iteration-order dependence becomes list-order
dependence.  File and network I/O are inputs: the OAuth token exchange is an
`acquire` function parameter and the tool registry's file loads are a
`LoadOutcome` per tool.
-/

namespace MCPCli

/-- Go strings, modelled as lists of characters. -/
abbrev Str := List Char

/-- Association list with string keys standing for a Go `map[string]V`. -/
abbrev AList (V : Type) := List (Str × V)

/-- Whitespace test used for `strings.TrimSpace` / `strings.Fields`
(Go `unicode.IsSpace`, restricted to the ASCII whitespace that can occur in
the inputs of this pipeline). -/
def isSpaceChar (c : Char) : Bool :=
  c = ' ' || c = '\t' || c = '\n' || c = '\r' || c = '\x0b' || c = '\x0c'

/-- Go map indexing `m[k]` in its comma-ok form: the value at the first
matching key, if any. -/
def lookupAL {V : Type} : AList V → Str → Option V
  | [], _ => none
  | (k, v) :: rest, key => if k = key then some v else lookupAL rest key

/-- Go map assignment `m[k] = v`: overwrite the entry for `k` in place if it
exists, otherwise append a new entry. -/
def insertAL {V : Type} : AList V → Str → V → AList V
  | [], k, v => [(k, v)]
  | (k', v') :: rest, k, v =>
    if k' = k then (k, v) :: rest else (k', v') :: insertAL rest k v

/-- Structural core of `strings.ReplaceAll`: scan left to right; on a match
emit the replacement and continue after the matched occurrence (never
rescanning the replacement).  `fuel` only bounds the recursion depth — every
step consumes at least one character, so the `fuel = 0` fallback (return the
rest unchanged) is unreachable when starting from `fuel = s.length`. -/
def replaceAllAux (pat rep : Str) : Nat → Str → Str
  | _, [] => []
  | 0, s => s
  | fuel + 1, c :: rest =>
    if pat ≠ [] ∧ pat.isPrefixOf (c :: rest) then
      rep ++ replaceAllAux pat rep fuel ((c :: rest).drop pat.length)
    else c :: replaceAllAux pat rep fuel rest

/-- Go `strings.ReplaceAll(s, pat, rep)` for a non-empty pattern.  (All call
sites in this code base use the non-empty patterns `"${KEY}"` and `"$KEY"`;
for an empty pattern this model returns `s` unchanged.) -/
def replaceAll (s pat rep : Str) : Str :=
  replaceAllAux pat rep s.length s

/-- Go `strings.Contains(s, pat)`. -/
def containsSub (s pat : Str) : Bool :=
  pat.isPrefixOf s ||
    match s with
    | [] => false
    | _ :: rest => containsSub rest pat

/-- Go `strings.TrimSpace`. -/
def trimSpace (s : Str) : Str :=
  ((s.dropWhile isSpaceChar).reverse.dropWhile isSpaceChar).reverse

/-- Go `strings.Fields`: split on runs of whitespace, dropping empties. -/
def fields (s : Str) : List Str :=
  (s.splitOnP isSpaceChar).filter (· ≠ [])

/-- Go `strings.Split(s, sep)` for a single-character separator. -/
def splitOnChar (sep : Char) : Str → List Str
  | [] => [[]]
  | c :: rest =>
    match splitOnChar sep rest with
    | [] => [[]]
    | part :: parts => if c = sep then [] :: part :: parts else (c :: part) :: parts

/-- Go `strings.Join(parts, sep)`. -/
def joinSep (sep : Str) : List Str → Str
  | [] => []
  | [x] => x
  | x :: xs => x ++ sep ++ joinSep sep xs

/-- Go `strings.TrimPrefix`. -/
def trimPrefixStr (s pat : Str) : Str :=
  if pat.isPrefixOf s then s.drop pat.length else s

/-- `expandEnvVars` (Go, env.go): replace every `${KEY}` occurrence, one
`strings.ReplaceAll` pass per environment entry, then every bare `$KEY`
occurrence, one pass per entry.  The Go code iterates over a map; the model
iterates over the association list, so the list order is the iteration
order. -/
def expandEnvVars (input : Str) (envVars : AList Str) : Str :=
  let result := envVars.foldl
    (fun acc kv => replaceAll acc ('$' :: '{' :: (kv.1 ++ ['}'])) kv.2) input
  envVars.foldl (fun acc kv => replaceAll acc ('$' :: kv.1) kv.2) result

/-! ## Data model (types.go, current revision: the snapshot bundled with
`clear.go`, which also declares the remote-server fields and the status
types used by `status.go`) -/

/-- `Service` (types.go).  The `volumes` field is the `Volumes []string`
field of the current `Service` schema: it is read by the current
`convertToMCPConfig` (root_test.go snapshot) and by the design document,
while the `Service` struct literals in the older snapshots omit it. -/
structure Service where
  command : Str := []
  image : Str := []
  environment : AList Str := []
  labels : AList Str := []
  volumes : List Str := []
deriving DecidableEq

/-- `MCPServer` (types.go): one record of the output document.  Go zero
values (`""`, `nil`) are `[]`; a `nil` map and an empty map are identified
(the code only ever tests `== nil || len == 0`). -/
structure MCPServer where
  command : Str := []
  args : List Str := []
  env : AList Str := []
  type' : Str := []
  url : Str := []
  headers : AList Str := []
deriving DecidableEq

/-- `OAuthConfig` (types.go). -/
structure OAuthConfig where
  grantType : Str := []
  tokenURL : Str := []
  clientID : Str := []
  clientSecret : Str := []
deriving DecidableEq

/-- `ToolConfig` (types.go): a tool's loaded configuration with metadata.
`MCPConfig` is just its `mcpServers` map, modelled as the association
list `config`. -/
structure ToolConfig where
  config : AList MCPServer := []
  path : Str := []
  exists' : Bool := false
  error : Str := []
deriving DecidableEq

/-- `ServerStatus` (types.go). -/
structure ServerStatus where
  status : Str := []
  tool : Str := []
  differences : List Str := []
  configPath : Str := []
  error : Str := []
deriving DecidableEq

/-! ## Remote-server classification and auth resolution (remote.go) -/

/-- `IsRemoteServer` (remote.go): the command, as written, starts with
`https://` or `http://`. -/
def IsRemoteServer (service : Service) : Bool :=
  "https://".data.isPrefixOf service.command || "http://".data.isPrefixOf service.command

/-- `UsesHeadersAuth` (remote.go): some label key starts with
`mcp.header.`. -/
def UsesHeadersAuth (service : Service) : Bool :=
  service.labels.any (fun kv => "mcp.header.".data.isPrefixOf kv.1)

/-- Modelled from the spec: `IsRemoteServerWithEnvExpansion`, the
environment-aware classifier used by `setCmd`, `convertToMCPConfig` and
`remote_env_expansion_test.go` but whose definition is not among the source
files; per spec §4.3, a service is Remote iff its `command`, after full
placeholder expansion using `env`, starts with `http://` or `https://`. -/
def IsRemoteServerWithEnvExpansion (service : Service) (envVars : AList Str) : Bool :=
  let expanded := expandEnvVars service.command envVars
  "https://".data.isPrefixOf expanded || "http://".data.isPrefixOf expanded

/-- The reserved label keys. -/
def grantTypeKey : Str := "mcp.grant-type".data
def tokenEndpointKey : Str := "mcp.token-endpoint".data
def clientIdKey : Str := "mcp.client-id".data
def clientSecretKey : Str := "mcp.client-secret".data
def headerLabelPrefix : Str := "mcp.header.".data
def profileKey : Str := "mcp.profile".data

/-- Go's `service.Labels["mcp.grant-type"]`: a missing key reads as `""`. -/
def grantTypeValue (service : Service) : Str :=
  (lookupAL service.labels grantTypeKey).getD []

/-- The missing-OAuth-labels computation of `ValidateRemoteServerAuth`
(remote.go): the required labels absent from the label map (comma-ok
presence test), in the order of the `requiredLabels` slice. -/
def oauthRequiredMissing (service : Service) : List Str :=
  [grantTypeKey, tokenEndpointKey, clientIdKey, clientSecretKey].filter
    (fun l => (lookupAL service.labels l).isNone)

/-- `ValidateRemoteServerAuth` (remote.go).  `some msg` is a returned
error, `none` is `nil`.  Go's `hasOAuthLabels` test
`service.Labels["mcp.grant-type"] != ""` reads a missing key as `""`
(`grantTypeValue`), while the required-label check uses the comma-ok form
(`oauthRequiredMissing`). -/
def ValidateRemoteServerAuth (name : Str) (service : Service) : Option Str :=
  let usesHeaders := UsesHeadersAuth service
  let hasOAuthLabels := grantTypeValue service ≠ []
  if !usesHeaders && !(decide hasOAuthLabels) then
    some ("remote server '".data ++ name ++
      "' must have either OAuth labels (mcp.grant-type, mcp.token-endpoint, mcp.client-id, mcp.client-secret) or headers labels (mcp.header.*)".data)
  else if usesHeaders && decide hasOAuthLabels then
    some ("remote server '".data ++ name ++ "' cannot have both OAuth labels and headers labels".data)
  else if decide hasOAuthLabels then
    let missingLabels := oauthRequiredMissing service
    if missingLabels ≠ [] then
      some ("remote server '".data ++ name ++ "' missing required OAuth labels: ".data ++
        joinSep ", ".data missingLabels)
    else if grantTypeValue service ≠ "client_credentials".data then
      some ("remote server '".data ++ name ++ "' must use 'client_credentials' grant type, got: ".data ++
        grantTypeValue service)
    else none
  else none

/-- The unresolved-placeholder test of `ExtractHeaders` (remote.go line
102): the expanded value contains `${`, or contains `$` while not starting
with `$`. -/
def headerValueUnresolved (v : Str) : Bool :=
  containsSub v "$\x7b".data || (containsSub v "$".data && !("$".data.isPrefixOf v))

/-- The loop of `ExtractHeaders` (remote.go): walk the labels, collect
`mcp.header.<Name>` entries (skipping an empty name and the `X-Empty`
sentinel with empty value), expanding each value and failing on the first
unresolved one; also record whether any `mcp.header.*` label was seen. -/
def extractHeadersLoop (envVars : AList Str) :
    AList Str → AList Str → Bool → Except Str (AList Str × Bool)
  | [], acc, hasHeaders => .ok (acc, hasHeaders)
  | (label, value) :: rest, acc, _hasHeaders =>
    if headerLabelPrefix.isPrefixOf label then
      let headerName := trimPrefixStr label headerLabelPrefix
      if headerName = [] then extractHeadersLoop envVars rest acc true
      else if headerName = "X-Empty".data ∧ value = [] then
        extractHeadersLoop envVars rest acc true
      else
        let expandedValue := expandEnvVars value envVars
        if headerValueUnresolved expandedValue then
          .error ("environment variable in header '".data ++ headerName ++
            "' was not resolved: ".data ++ expandedValue)
        else extractHeadersLoop envVars rest (insertAL acc headerName expandedValue) true
    else extractHeadersLoop envVars rest acc _hasHeaders

/-- `ExtractHeaders` (remote.go). -/
def ExtractHeaders (service : Service) (envVars : AList Str) : Except Str (AList Str) :=
  match extractHeadersLoop envVars service.labels [] false with
  | .error e => .error e
  | .ok (headers, hasHeaders) =>
    if !hasHeaders then .error "no headers found (expected mcp.header.* labels)".data
    else .ok headers

/-- The per-label contribution of `ExtractHeaders` on the fully-resolved
path: the header entry produced by one `mcp.header.<Name>` label (skipping
an empty name and the `X-Empty` sentinel), used to state the extractor's
success value. -/
def headerEntryContrib (envVars : AList Str) (kv : Str × Str) : Option (Str × Str) :=
  if headerLabelPrefix.isPrefixOf kv.1 then
    let headerName := trimPrefixStr kv.1 headerLabelPrefix
    if headerName = [] then none
    else if headerName = "X-Empty".data ∧ kv.2 = [] then none
    else some (headerName, expandEnvVars kv.2 envVars)
  else none

/-- `ExtractOAuthConfig` (remote.go): read the four OAuth labels (missing
keys read as `""`), expand each, and fail if client ID, client secret or
token URL still contain `${` or `$`. -/
def ExtractOAuthConfig (service : Service) (envVars : AList Str) : Except Str OAuthConfig :=
  let config : OAuthConfig :=
    { grantType := expandEnvVars ((lookupAL service.labels grantTypeKey).getD []) envVars
      tokenURL := expandEnvVars ((lookupAL service.labels tokenEndpointKey).getD []) envVars
      clientID := expandEnvVars ((lookupAL service.labels clientIdKey).getD []) envVars
      clientSecret := expandEnvVars ((lookupAL service.labels clientSecretKey).getD []) envVars }
  if containsSub config.clientID "$\x7b".data || containsSub config.clientID "$".data then
    .error ("environment variable in OAuth client ID was not resolved: ".data ++ config.clientID)
  else if containsSub config.clientSecret "$\x7b".data || containsSub config.clientSecret "$".data then
    .error ("environment variable in OAuth client secret was not resolved: ".data ++ config.clientSecret)
  else if containsSub config.tokenURL "$\x7b".data || containsSub config.tokenURL "$".data then
    .error ("environment variable in OAuth token URL was not resolved: ".data ++ config.tokenURL)
  else .ok config

/-- `remoteSupportedTools` (remote.go), as the list of keys mapped to
`true`. -/
def remoteSupportedTools : List Str := ["cursor".data, "kiro".data, "q-cli".data]

/-- Modelled from the spec: `ValidateToolSupportWithEnvExpansion`, the
environment-aware variant of `ValidateToolSupport` called by `setCmd` but
absent from the source files; it rejects a tool outside
`remoteSupportedTools` when the filtered set contains a remote service
(classified after expansion). -/
def ValidateToolSupportWithEnvExpansion (toolShortcut : Str)
    (servers : AList Service) (envVars : AList Str) : Option Str :=
  let hasRemoteServers := servers.any (fun kv => IsRemoteServerWithEnvExpansion kv.2 envVars)
  if hasRemoteServers ∧ toolShortcut ≠ [] ∧ ¬(toolShortcut ∈ remoteSupportedTools) then
    some ("tool '".data ++ toolShortcut ++ "' does not support remote MCP servers".data)
  else none

/-! ## Profile filter (types.go, current revision) -/


/-- The default test of `filterServers` (types.go, current revision): no
`mcp.profile` label, or the comma-separated profile list contains the
trimmed token `default`. -/
def isDefaultService (service : Service) : Bool :=
  match lookupAL service.labels profileKey with
  | none => true
  | some profileStr => (splitOnChar ',' profileStr).any (fun p => trimSpace p = "default".data)

/-- The tag test of `filterServers`: the service has an `mcp.profile` label
whose comma-separated list contains the trimmed token `profile`. -/
def profileListContains (service : Service) (profile : Str) : Bool :=
  match lookupAL service.labels profileKey with
  | none => false
  | some profileStr => (splitOnChar ',' profileStr).any (fun p => trimSpace p = profile)

/-- The per-service predicate of `filterServers` (types.go, current
revision): under the empty profile keep exactly the default services; under
a non-empty profile keep the default services and those tagged with the
requested profile. -/
def filterPred (profile : Str) (service : Service) : Bool :=
  if profile = [] then isDefaultService service
  else isDefaultService service || profileListContains service profile

/-- `filterServers` (types.go, current revision — the snapshot bundled with
`clear.go`, the one exercised by `TestFilterServers`; the older standalone
`types.go` snapshot omitted the default-inclusion rule for non-empty
profiles).  The document is the ordered list of `services` entries; the Go
function returns a map, modelled as the sublist of matching entries. -/
def filterServers (services : AList Service) (profile : Str) (all : Bool) : AList Service :=
  if all then services
  else services.filter (fun kv => filterPred profile kv.2)

/-! ## Config translator (`convertToMCPConfig`, current revision in the
root_test.go bundle; `setCmd` write pipeline) -/

/-- Container tool resolution at the top of `convertToMCPConfig`: `docker`
unless the CLI config file supplies a non-empty `container-tool`.  The
config file contents are a collaborator input. -/
def resolveContainerTool (cliContainerTool : Str) : Str :=
  if cliContainerTool = [] then "docker".data else cliContainerTool

/-- The merged environment used for remote auth resolution: the service's
own `environment` entries, each expanded against the global `envVars`,
assigned over a copy of `envVars` (both `convertToMCPConfig` and
`compareRemoteServers` build it this way). -/
def mergeServiceEnv (service : Service) (envVars : AList Str) : AList Str :=
  service.environment.foldl
    (fun acc kv => insertAL acc kv.1 (expandEnvVars kv.2 envVars)) envVars

/-- The loop body of `convertToMCPConfig` for one service.  `acquire` is
the OAuth token exchange (`AcquireAccessTokenWithFeedback`), a collaborator
performing the network call; `.error` models the `os.Exit(1)` taken on a
header-extraction, OAuth-extraction or token-acquisition failure. -/
def convertService (containerTool : Str) (acquire : Str → OAuthConfig → Except Str Str)
    (name : Str) (service : Service) (envVars : AList Str) : Except Str MCPServer :=
  if IsRemoteServerWithEnvExpansion service envVars then
    let url := expandEnvVars service.command envVars
    let serviceEnvVars := mergeServiceEnv service envVars
    if UsesHeadersAuth service then
      match ExtractHeaders service serviceEnvVars with
      | .error e => .error ("Error extracting headers for '".data ++ name ++ "': ".data ++ e)
      | .ok headers => .ok { type' := "http".data, url := url, headers := headers }
    else
      match ExtractOAuthConfig service serviceEnvVars with
      | .error e => .error ("Error extracting OAuth config for '".data ++ name ++ "': ".data ++ e)
      | .ok oauthConfig =>
        match acquire name oauthConfig with
        | .error e => .error ("Failed to acquire access token for '".data ++ name ++ "': ".data ++ e)
        | .ok accessToken =>
          .ok { type' := "http".data, url := url
                headers := [("Authorization".data, "Bearer ".data ++ accessToken)] }
  else
    let base : MCPServer :=
      if service.image ≠ [] then
        { command := containerTool
          args := ["run".data, "-i".data, "--rm".data] ++
            (service.environment.map
              (fun kv => ["-e".data, kv.1 ++ "=".data ++ expandEnvVars kv.2 envVars])).flatten ++
            (service.volumes.map (fun v => ["-v".data, expandEnvVars v envVars])).flatten ++
            [expandEnvVars service.image envVars] }
      else
        match fields service.command with
        | [] => {}
        | c :: restParts =>
          { command := c
            args := if restParts = [] then []
              else restParts.map (fun arg => expandEnvVars arg envVars) }
    if service.environment ≠ [] then
      .ok { base with
            env := service.environment.map (fun kv => (kv.1, expandEnvVars kv.2 envVars)) }
    else .ok base

/-- `convertToMCPConfig` (current revision), over the ordered list of
filtered services; any per-service failure (which in Go is an immediate
`os.Exit(1)`) makes the whole translation fail. -/
def convertToMCPConfig (servers : AList Service) (envVars : AList Str)
    (containerTool : Str) (acquire : Str → OAuthConfig → Except Str Str) :
    Except Str (AList MCPServer) :=
  match servers with
  | [] => .ok []
  | (name, service) :: rest =>
    match convertService containerTool acquire name service envVars with
    | .error e => .error e
    | .ok record =>
      match convertToMCPConfig rest envVars containerTool acquire with
      | .error e => .error e
      | .ok restRecords => .ok ((name, record) :: restRecords)

/-- The `setCmd` pipeline after loading (root_test.go bundle): filter,
validate remote auth for every remote service, validate tool support, then
translate; the file write happens only when everything before it
succeeded.  `some cfg` is the document written to the output file, `none`
means the operation aborted (`os.Exit(1)`) before the write step. -/
def setPipelineWrites (services : AList Service) (profile : Str)
    (envVars : AList Str) (toolShortcut containerTool : Str)
    (acquire : Str → OAuthConfig → Except Str Str) : Option (AList MCPServer) :=
  let servers := filterServers services profile false
  if servers.any (fun kv =>
      IsRemoteServerWithEnvExpansion kv.2 envVars &&
        (ValidateRemoteServerAuth kv.1 kv.2).isSome) then none
  else if (ValidateToolSupportWithEnvExpansion toolShortcut servers envVars).isSome then none
  else
    match convertToMCPConfig servers envVars containerTool acquire with
    | .error _ => none
    | .ok mcpConfig => some mcpConfig

/-! ## Status comparator (status.go) -/

/-- `compareHeaders` (status.go): equal sizes and every expected entry
found with the same value.  (Go `len` on a map counts keys; the maps this
is applied to have unique keys, so list length agrees.) -/
def compareHeaders (expected actual : AList Str) : Bool :=
  expected.length == actual.length &&
    expected.all (fun kv =>
      match lookupAL actual kv.1 with
      | some actualValue => actualValue == kv.2
      | none => false)

/-- `compareEnvVars` (status.go): same shape as `compareHeaders`. -/
def compareEnvVars (expected actual : AList Str) : Bool :=
  expected.length == actual.length &&
    expected.all (fun kv =>
      match lookupAL actual kv.1 with
      | some actualValue => actualValue == kv.2
      | none => false)

/-- `compareStringSlices` (status.go): equal lengths and equal elements
position by position. -/
def compareStringSlices (a b : List Str) : Bool :=
  a.length == b.length && (List.zip a b).all (fun p => p.1 == p.2)

/-- `compareRemoteServers` (status.go): type must be the literal `http`,
the deployed URL is compared against the service's `command` **as
written** (no placeholder expansion), headers-mode recomputes the expected
headers with the merged environment, OAuth-mode only checks for a
non-empty header map with an `Authorization` value starting with
`Bearer `. -/
def compareRemoteServers (composeService : Service) (deployedServer : MCPServer)
    (envVars : AList Str) : Str × List Str :=
  let typeDiffs :=
    if deployedServer.type' ≠ "http".data then
      ["type mismatch: expected 'http', got '".data ++ deployedServer.type' ++ "'".data]
    else []
  let expectedURL := composeService.command
  let urlDiffs :=
    if deployedServer.url ≠ expectedURL then
      ["URL mismatch: expected '".data ++ expectedURL ++ "', got '".data ++
        deployedServer.url ++ "'".data]
    else []
  let headerDiffs :=
    if UsesHeadersAuth composeService then
      let serviceEnvVars := mergeServiceEnv composeService envVars
      match ExtractHeaders composeService serviceEnvVars with
      | .ok expectedHeaders =>
        if !compareHeaders expectedHeaders deployedServer.headers then
          ["headers mismatch".data]
        else []
      | .error _ => []
    else
      if deployedServer.headers.length == 0 then ["missing OAuth headers".data]
      else
        match lookupAL deployedServer.headers "Authorization".data with
        | none => ["invalid OAuth headers".data]
        | some authHeader =>
          if !("Bearer ".data.isPrefixOf authHeader) then ["invalid OAuth headers".data]
          else []
  let differences := typeDiffs ++ urlDiffs ++ headerDiffs
  if differences.length > 0 then ("different".data, differences)
  else ("configured".data, [])

/-- `compareLocalServers` (status.go).  `containerTool` is the value the
function reads from the CLI config file (collaborator input, resolved the
same way as in `convertToMCPConfig`).  The `serverName` argument is kept
from the Go signature (unused by the body, as in the source). -/
def compareLocalServers (_serverName : Str) (composeService : Service)
    (deployedServer : MCPServer) (envVars : AList Str) (containerTool : Str) :
    Str × List Str :=
  if composeService.image ≠ [] then
    let commandDiffs :=
      if deployedServer.command ≠ containerTool then
        ["command mismatch: expected '".data ++ containerTool ++ "', got '".data ++
          deployedServer.command ++ "'".data]
      else []
    let expectedArgsPrefix := ["run".data, "-i".data, "--rm".data]
    let argDiffs :=
      if deployedServer.args.length < expectedArgsPrefix.length then
        ["missing container run arguments".data]
      else
        expectedArgsPrefix.enum.filterMap (fun iArg =>
          match deployedServer.args.get? iArg.1 with
          | some actualArg =>
            if actualArg ≠ iArg.2 then
              some ("arg mismatch at position ".data ++ (Nat.repr iArg.1).data ++
                ": expected '".data ++ iArg.2 ++ "', got '".data ++ actualArg ++ "'".data)
            else none
          | none => none)
    let expectedEnv := composeService.environment.map
      (fun kv => (kv.1, expandEnvVars kv.2 envVars))
    let envDiffs :=
      if !compareEnvVars expectedEnv deployedServer.env then
        ["environment variables mismatch".data]
      else []
    let expandedImage := expandEnvVars composeService.image envVars
    let imageDiffs :=
      if deployedServer.args.length > 0 then
        let lastArg := (deployedServer.args.getLast?).getD []
        if lastArg ≠ expandedImage then
          ["image mismatch: expected '".data ++ expandedImage ++ "', got '".data ++
            lastArg ++ "'".data]
        else []
      else []
    let differences := commandDiffs ++ argDiffs ++ envDiffs ++ imageDiffs
    if differences.length > 0 then ("different".data, differences)
    else ("configured".data, [])
  else
    let commandCaseDiffs :=
      match fields composeService.command with
      | [] => []
      | expectedCommand :: restParts =>
        let commandDiffs :=
          if deployedServer.command ≠ expectedCommand then
            ["command mismatch: expected '".data ++ expectedCommand ++ "', got '".data ++
              deployedServer.command ++ "'".data]
          else []
        let expectedArgs := restParts.map (fun arg => expandEnvVars arg envVars)
        let argDiffs :=
          if !compareStringSlices expectedArgs deployedServer.args then
            ["arguments mismatch".data]
          else []
        commandDiffs ++ argDiffs
    let expectedEnv := composeService.environment.map
      (fun kv => (kv.1, expandEnvVars kv.2 envVars))
    let envDiffs :=
      if !compareEnvVars expectedEnv deployedServer.env then
        ["environment variables mismatch".data]
      else []
    let differences := commandCaseDiffs ++ envDiffs
    if differences.length > 0 then ("different".data, differences)
    else ("configured".data, [])

/-- `compareServerConfig` (status.go): zero-value deployed record means
not configured; otherwise classify with the **unexpanded** `IsRemoteServer`
and delegate. -/
def compareServerConfig (serverName : Str) (composeService : Service)
    (deployedServer : MCPServer) (envVars : AList Str) (containerTool : Str) :
    Str × List Str :=
  if deployedServer.command = [] ∧ deployedServer.url = [] then
    ("not-configured".data, [])
  else if IsRemoteServer composeService then
    compareRemoteServers composeService deployedServer envVars
  else
    compareLocalServers serverName composeService deployedServer envVars containerTool

/-- The outcome of `loadToolConfig` for one tool, supplied by the Tool
Registry collaborator (the function itself does path lookup and file
I/O): unknown shortcut, file absent, file present but unreadable or
unparseable (with the formatted error message), or loaded. -/
inductive LoadOutcome where
  | unknownTool : LoadOutcome
  | missing : Str → LoadOutcome
  | loadError : Str → Str → LoadOutcome
  | loaded : Str → AList MCPServer → LoadOutcome
deriving DecidableEq

/-- The loop body of `getToolConfigs` (status.go) for one tool: on a
`loadToolConfig` error the entry records `Exists: false` together with the
error text; otherwise `Exists` is the file-existence test (false for a
missing file, true for a loaded one). -/
def toolConfigOf (tool : Str) : LoadOutcome → ToolConfig
  | .unknownTool =>
    { config := [], path := [], exists' := false
      error := "unknown tool shortcut: ".data ++ tool }
  | .loadError path msg => { config := [], path := path, exists' := false, error := msg }
  | .missing path => { config := [], path := path, exists' := false, error := [] }
  | .loaded path cfg => { config := cfg, path := path, exists' := !path.isEmpty, error := [] }

/-- `getToolConfigs` (status.go), over the ordered tool list with each
tool's load outcome. -/
def getToolConfigs (tools : List (Str × LoadOutcome)) : List (Str × ToolConfig) :=
  tools.map (fun kv => (kv.1, toolConfigOf kv.1 kv.2))

/-- The loop body of `getServerStatus` (status.go) for one tool: the
`Exists` flag is checked **before** the `Error` field. -/
def serverStatusFor (serverName : Str) (composeService : Service) (tool : Str)
    (toolConfig : ToolConfig) (envVars : AList Str) (containerTool : Str) : ServerStatus :=
  if !toolConfig.exists' then
    { status := "not-configured".data, tool := tool, configPath := toolConfig.path }
  else if toolConfig.error ≠ [] then
    { status := "unknown".data, tool := tool, configPath := toolConfig.path
      error := toolConfig.error }
  else
    match lookupAL toolConfig.config serverName with
    | none => { status := "not-configured".data, tool := tool, configPath := toolConfig.path }
    | some deployedServer =>
      let result := compareServerConfig serverName composeService deployedServer envVars
        containerTool
      { status := result.1, tool := tool, differences := result.2
        configPath := toolConfig.path }

/-- `getServerStatus` (status.go), over the ordered tool-config list. -/
def getServerStatus (serverName : Str) (composeService : Service)
    (toolConfigs : List (Str × ToolConfig)) (envVars : AList Str)
    (containerTool : Str) : List (Str × ServerStatus) :=
  toolConfigs.map (fun kv =>
    (kv.1, serverStatusFor serverName composeService kv.1 kv.2 envVars containerTool))

/-! ## Dotenv loader (`loadEnvVars`, env.go) -/

/-- Go's string slice expression `s[lo:hi]`: defined only when
`lo ≤ hi ≤ len(s)`, otherwise the program panics (`none`). -/
def goSlice (s : Str) (lo hi : Nat) : Option Str :=
  if lo ≤ hi ∧ hi ≤ s.length then some ((s.drop lo).take (hi - lo)) else none

/-- The quote-stripping step of `loadEnvVars` (env.go): when the trimmed
value both starts and ends with `"`, or both starts and ends with `'`,
evaluate `value[1 : len(value)-1]`.  Returns `none` exactly when that Go
slice expression panics. -/
def stripQuotes (value : Str) : Option Str :=
  if ("\"".data.isPrefixOf value ∧ "\"".data.isSuffixOf value) ∨
      ("'".data.isPrefixOf value ∧ "'".data.isSuffixOf value) then
    goSlice value 1 (value.length - 1)
  else some value

/-- Go `strings.SplitN(s, "=", 2)` restricted to the two cases the caller
distinguishes: `some (before, after)` when `=` occurs (split at the first
one), `none` when it does not (`len(parts) != 2`). -/
def splitFirstEq : Str → Option (Str × Str)
  | [] => none
  | c :: rest =>
    if c = '=' then some ([], rest)
    else (splitFirstEq rest).map (fun p => (c :: p.1, p.2))

/-- One iteration of the scanner loop of `loadEnvVars` (env.go): trim the
line, skip blanks and `#` comments, split on the first `=` (silently
skipping lines without one), trim key and value, strip quotes, and set the
key only when absent.  `none` models a runtime panic. -/
def processEnvLine (envVars : AList Str) (rawLine : Str) : Option (AList Str) :=
  let line := trimSpace rawLine
  if line = [] ∨ "#".data.isPrefixOf line then some envVars
  else
    match splitFirstEq line with
    | none => some envVars
    | some (rawKey, rawValue) =>
      let key := trimSpace rawKey
      let value := trimSpace rawValue
      match stripQuotes value with
      | none => none
      | some value =>
        if (lookupAL envVars key).isSome then some envVars
        else some (insertAL envVars key value)

/-- The dotenv-scanning phase of `loadEnvVars` (env.go): fold the line
processor over the file's lines, starting from the system environment.
`none` models a runtime panic while processing some line. -/
def loadEnvVarsLines (systemEnv : AList Str) (lines : List Str) : Option (AList Str) :=
  lines.foldlM processEnvLine systemEnv

/-! ## Association-list lemmas: Go map invariants in the model -/

theorem mem_keys_insertAL {V : Type} {k x : Str} {v : V} :
    ∀ {m : AList V}, x ∈ (insertAL m k v).map Prod.fst → x = k ∨ x ∈ m.map Prod.fst
  | [], h => by
    rw [insertAL, List.map_cons, List.map_nil] at h
    rcases List.mem_cons.mp h with h | h
    · exact Or.inl h
    · cases h
  | (k', v') :: tl, h => by
    rw [insertAL] at h
    by_cases heq : k' = k
    · rw [if_pos heq, List.map_cons] at h
      rcases List.mem_cons.mp h with h | h
      · exact Or.inl h
      · rw [List.map_cons]
        exact Or.inr (List.mem_cons_of_mem _ h)
    · rw [if_neg heq, List.map_cons] at h
      rcases List.mem_cons.mp h with h | h
      · rw [List.map_cons]
        exact Or.inr (h ▸ List.mem_cons_self _ _)
      · rcases mem_keys_insertAL h with h | h
        · exact Or.inl h
        · rw [List.map_cons]
          exact Or.inr (List.mem_cons_of_mem _ h)

theorem keys_insertAL_nodup {V : Type} (k : Str) (v : V) :
    ∀ {m : AList V}, (m.map Prod.fst).Nodup → ((insertAL m k v).map Prod.fst).Nodup
  | [], _ => by
    rw [insertAL, List.map_cons, List.map_nil]
    exact List.nodup_singleton k
  | (k', v') :: tl, h => by
    rw [List.map_cons] at h
    rcases List.nodup_cons.mp h with ⟨hk, htl⟩
    rw [insertAL]
    by_cases heq : k' = k
    · rw [if_pos heq, List.map_cons]
      exact List.nodup_cons.mpr ⟨heq ▸ hk, htl⟩
    · rw [if_neg heq, List.map_cons]
      refine List.nodup_cons.mpr ⟨?_, keys_insertAL_nodup k v htl⟩
      intro hmem
      rcases mem_keys_insertAL hmem with h' | h'
      · exact heq h'
      · exact hk h'

theorem lookupAL_self_of_nodup {V : Type} {k : Str} {v : V} :
    ∀ {m : AList V}, (m.map Prod.fst).Nodup → (k, v) ∈ m → lookupAL m k = some v
  | [], _, hm => by cases hm
  | (k', v') :: tl, h, hm => by
    rw [List.map_cons] at h
    rcases List.nodup_cons.mp h with ⟨hk, htl⟩
    rcases List.mem_cons.mp hm with heq | hmem
    · rw [lookupAL]
      cases heq
      rw [if_pos rfl]
    · rw [lookupAL]
      have hne : k' ≠ k := by
        intro hcontr
        have hmemk : k ∈ tl.map Prod.fst := List.mem_map_of_mem Prod.fst hmem
        rw [← hcontr] at hmemk
        exact hk hmemk
      rw [if_neg hne]
      exact lookupAL_self_of_nodup htl hmem

theorem compareEnvVars_self {m : AList Str} (h : (m.map Prod.fst).Nodup) :
    compareEnvVars m m = true := by
  rw [compareEnvVars, Bool.and_eq_true]
  constructor
  · exact beq_self_eq_true m.length
  · apply List.all_eq_true.mpr
    intro kv hkv
    obtain ⟨a, b⟩ := kv
    rw [lookupAL_self_of_nodup h hkv]
    exact beq_self_eq_true b

theorem compareHeaders_self {m : AList Str} (h : (m.map Prod.fst).Nodup) :
    compareHeaders m m = true := by
  rw [show compareHeaders m m = compareEnvVars m m from rfl]
  exact compareEnvVars_self h

theorem mem_zip_self_eq {α : Type} {p : α × α} :
    ∀ {l : List α}, p ∈ l.zip l → p.1 = p.2
  | [], h => absurd h (List.not_mem_nil p)
  | hd :: tl, h => by
    rw [List.zip_cons_cons] at h
    rcases List.mem_cons.mp h with h | h
    · rw [h]
    · exact mem_zip_self_eq h

theorem compareStringSlices_self (l : List Str) : compareStringSlices l l = true := by
  rw [compareStringSlices, Bool.and_eq_true]
  constructor
  · exact beq_self_eq_true l.length
  · apply List.all_eq_true.mpr
    intro p hp
    have h := mem_zip_self_eq hp
    rw [h]
    exact beq_self_eq_true p.2

/-! ## `replaceAll` and `expandEnvVars` lemmas -/

theorem replaceAllAux_zero (pat rep : Str) (s : Str) :
    replaceAllAux pat rep 0 s = s := by
  cases s <;> rfl

theorem replaceAllAux_of_notMem {pat : Str} {c : Char} (rep : Str)
    (hpat : pat.head? = some c) :
    ∀ (fuel : Nat) {s : Str}, c ∉ s → replaceAllAux pat rep fuel s = s := by
  intro fuel
  induction fuel with
  | zero => intro s _; exact replaceAllAux_zero pat rep s
  | succ n ih =>
    intro s hc
    cases s with
    | nil => rfl
    | cons c' rest =>
      rw [replaceAllAux]
      have hnomatch : ¬(pat ≠ [] ∧ pat.isPrefixOf (c' :: rest)) := by
        rintro ⟨hne, hpre⟩
        cases pat with
        | nil => exact hne rfl
        | cons p0 ptl =>
          have hp0 : p0 = c := by simpa using hpat
          have hand : (p0 == c') && ptl.isPrefixOf rest := by
            simpa [List.isPrefixOf] using hpre
          have hp0c : p0 = c' := beq_iff_eq.mp ((Bool.and_eq_true _ _).mp hand).1
          exact hc (by simp [← hp0c, hp0])
      rw [if_neg hnomatch]
      have hcr : c ∉ rest := fun h => hc (List.mem_cons_of_mem _ h)
      rw [ih hcr]

/-- A pattern starting with a character absent from `s` never matches:
`strings.ReplaceAll` leaves `s` unchanged. -/
theorem replaceAll_of_notMem {pat : Str} {c : Char} (rep : Str)
    (hpat : pat.head? = some c) :
    ∀ {s : Str}, c ∉ s → replaceAll s pat rep = s := by
  intro s hc
  exact replaceAllAux_of_notMem rep hpat s.length hc

theorem isPrefixOf_replaceAllAux {pat : Str} {c : Char} (rep : Str)
    (hpat : pat.head? = some c) :
    ∀ (fuel : Nat) {pre s : Str}, c ∉ pre → pre.isPrefixOf s →
      pre.isPrefixOf (replaceAllAux pat rep fuel s) := by
  intro fuel
  induction fuel with
  | zero =>
    intro pre s hc hpre
    rw [replaceAllAux_zero]
    exact hpre
  | succ n ih =>
    intro pre s hc hpre
    cases pre with
    | nil => simp [List.isPrefixOf]
    | cons p0 pre' =>
      cases s with
      | nil => simp [List.isPrefixOf] at hpre
      | cons s0 rest =>
        have hsplit : (p0 == s0) && pre'.isPrefixOf rest := by
          simpa [List.isPrefixOf] using hpre
        rcases (Bool.and_eq_true _ _).mp hsplit with ⟨hbeq, hrest⟩
        have hp0 : p0 = s0 := beq_iff_eq.mp hbeq
        rw [replaceAllAux]
        have hnomatch : ¬(pat ≠ [] ∧ pat.isPrefixOf (s0 :: rest)) := by
          rintro ⟨hne, hpp⟩
          cases pat with
          | nil => exact hne rfl
          | cons q0 qtl =>
            have hq0 : q0 = c := by simpa using hpat
            have hand : (q0 == s0) && qtl.isPrefixOf rest := by
              simpa [List.isPrefixOf] using hpp
            have hq0s : q0 = s0 := beq_iff_eq.mp ((Bool.and_eq_true _ _).mp hand).1
            have hcp : c = p0 := by rw [← hq0, hq0s, hp0]
            exact hc (hcp ▸ List.mem_cons_self p0 pre')
        rw [if_neg hnomatch]
        have hc' : c ∉ pre' := fun h => hc (List.mem_cons_of_mem _ h)
        have hres := ih hc' hrest
        simp [List.isPrefixOf, hp0, hres]

/-- A prefix free of the pattern's first character survives
`strings.ReplaceAll`. -/
theorem isPrefixOf_replaceAll {pre pat : Str} {c : Char} (rep : Str)
    (hpat : pat.head? = some c) (hc : c ∉ pre) :
    ∀ {s : Str}, pre.isPrefixOf s → pre.isPrefixOf (replaceAll s pat rep) := by
  intro s hpre
  exact isPrefixOf_replaceAllAux rep hpat s.length hc hpre

/-- A `$`-free prefix survives the whole `expandEnvVars` pass (both the
`${KEY}` patterns and the `$KEY` patterns start with `$`). -/
theorem isPrefixOf_expandEnvVars {pre : Str} (hd : '$' ∉ pre) :
    ∀ (envVars : AList Str) {s : Str}, pre.isPrefixOf s →
      pre.isPrefixOf (expandEnvVars s envVars) := by
  have pass :
      ∀ (f : Str × Str → Str) (l : AList Str) {acc : Str},
        (∀ kv, (f kv).head? = some '$') →
        pre.isPrefixOf acc →
        pre.isPrefixOf (l.foldl (fun a kv => replaceAll a (f kv) kv.2) acc) := by
    intro f l
    induction l with
    | nil => intro acc _ h; simpa using h
    | cons hd' tl ih =>
      intro acc hf h
      rw [List.foldl_cons]
      exact ih hf (isPrefixOf_replaceAll _ (hf hd') hd h)
  intro envVars s h
  rw [expandEnvVars]
  refine pass (fun kv => '$' :: kv.1) envVars (fun kv => rfl) ?_
  exact pass (fun kv => '$' :: '{' :: (kv.1 ++ ['}'])) envVars (fun kv => rfl) h

/-- `expandEnvVars` is the identity on inputs containing no `$`. -/
theorem expandEnvVars_of_no_dollar {s : Str} (envVars : AList Str) (hd : '$' ∉ s) :
    expandEnvVars s envVars = s := by
  have pass :
      ∀ (f : Str × Str → Str) (l : AList Str),
        (∀ kv, (f kv).head? = some '$') →
        (l.foldl (fun a kv => replaceAll a (f kv) kv.2) s) = s := by
    intro f l hf
    induction l with
    | nil => rfl
    | cons hd' tl ih =>
      rw [List.foldl_cons, replaceAll_of_notMem _ (hf hd') hd, ih]
  rw [expandEnvVars]
  rw [pass (fun kv => '$' :: '{' :: (kv.1 ++ ['}'])) envVars (fun kv => rfl)]
  exact pass (fun kv => '$' :: kv.1) envVars (fun kv => rfl)

theorem isPrefixOf_append_self : ∀ (l t : Str), l.isPrefixOf (l ++ t) = true
  | [], _ => by simp [List.isPrefixOf]
  | c :: rest, t => by
    rw [List.cons_append, List.isPrefixOf, Bool.and_eq_true]
    exact ⟨beq_self_eq_true c, isPrefixOf_append_self rest t⟩

theorem ne_nil_of_isPrefixOf {p s : Str} (hp : p ≠ []) (h : p.isPrefixOf s = true) :
    s ≠ [] := by
  intro hs
  subst hs
  cases p with
  | nil => exact hp rfl
  | cons c rest => simp [List.isPrefixOf] at h

theorem mem_fields_ne_nil {s x : Str} (h : x ∈ fields s) : x ≠ [] := by
  rw [fields] at h
  exact of_decide_eq_true (List.mem_filter.mp h).2

/-! ## Auxiliary facts about the translator and the header extractor -/

theorem extractHeadersLoop_ok_nodup (envVars : AList Str) :
    ∀ (labels : AList Str) (acc : AList Str) (b : Bool) {h : AList Str} {hb : Bool},
      (acc.map Prod.fst).Nodup →
      extractHeadersLoop envVars labels acc b = .ok (h, hb) →
      (h.map Prod.fst).Nodup := by
  intro labels
  induction labels with
  | nil =>
    intro acc b h hb hacc heq
    rw [extractHeadersLoop] at heq
    cases heq
    exact hacc
  | cons hd tl ih =>
    intro acc b h hb hacc heq
    obtain ⟨label, value⟩ := hd
    rw [extractHeadersLoop] at heq
    simp only [] at heq
    split at heq
    · split at heq
      · exact ih acc true hacc heq
      · split at heq
        · exact ih acc true hacc heq
        · split at heq
          · cases heq
          · exact ih _ true (keys_insertAL_nodup _ _ hacc) heq
    · exact ih acc b hacc heq

theorem ExtractHeaders_ok_nodup {service : Service} {envVars : AList Str}
    {h : AList Str} (heq : ExtractHeaders service envVars = .ok h) :
    (h.map Prod.fst).Nodup := by
  rw [ExtractHeaders] at heq
  split at heq
  · cases heq
  · rename_i headers hasHeaders hloop
    split at heq
    · cases heq
    · cases heq
      exact extractHeadersLoop_ok_nodup envVars service.labels [] false List.nodup_nil hloop

theorem insertAL_eq_append {V : Type} :
    ∀ (m : AList V) (k : Str) (v : V), k ∉ m.map Prod.fst → insertAL m k v = m ++ [(k, v)]
  | [], _, _, _ => rfl
  | (k', v') :: tl, k, v, h => by
    rw [List.map_cons] at h
    have hne : k' ≠ k := fun hc => h (hc ▸ List.mem_cons_self _ _)
    rw [insertAL, if_neg hne, List.cons_append,
      insertAL_eq_append tl k v (fun hc => h (List.mem_cons_of_mem _ hc))]

theorem trimPrefixStr_inj {pre k1 k2 : Str}
    (h1 : pre.isPrefixOf k1 = true) (h2 : pre.isPrefixOf k2 = true)
    (he : trimPrefixStr k1 pre = trimPrefixStr k2 pre) : k1 = k2 := by
  rcases List.isPrefixOf_iff_prefix.mp h1 with ⟨t1, ht1⟩
  rcases List.isPrefixOf_iff_prefix.mp h2 with ⟨t2, ht2⟩
  rw [trimPrefixStr, if_pos h1, trimPrefixStr, if_pos h2] at he
  rw [← ht1, ← ht2, List.drop_left, List.drop_left] at he
  rw [← ht1, ← ht2, he]

/-- `extractHeadersLoop` when no label carries the header prefix: the
accumulator and flag pass through unchanged. -/
theorem extractHeadersLoop_no_headers (envVars : AList Str) :
    ∀ (labels : AList Str) (acc : AList Str) (b : Bool),
      (∀ kv ∈ labels, headerLabelPrefix.isPrefixOf kv.1 = false) →
      extractHeadersLoop envVars labels acc b = .ok (acc, b)
  | [], _, _, _ => rfl
  | (l, v) :: tl, acc, b, h => by
    rw [extractHeadersLoop]
    have hl : headerLabelPrefix.isPrefixOf l = false := h (l, v) (List.mem_cons_self _ _)
    rw [if_neg (by rw [hl]; exact fun hc => Bool.noConfusion hc)]
    exact extractHeadersLoop_no_headers envVars tl acc b
      (fun kv hkv => h kv (List.mem_cons_of_mem _ hkv))

/-- `extractHeadersLoop` fails when some label's expanded value is
unresolved (and the label is a real header label, not skipped). -/
theorem extractHeadersLoop_error_of_unresolved (envVars : AList Str) :
    ∀ (labels : AList Str) (acc : AList Str) (b : Bool),
      (∃ kv ∈ labels, headerLabelPrefix.isPrefixOf kv.1 = true ∧
        trimPrefixStr kv.1 headerLabelPrefix ≠ [] ∧
        ¬(trimPrefixStr kv.1 headerLabelPrefix = "X-Empty".data ∧ kv.2 = []) ∧
        headerValueUnresolved (expandEnvVars kv.2 envVars) = true) →
      ∃ e, extractHeadersLoop envVars labels acc b = .error e := by
  intro labels
  induction labels with
  | nil =>
    intro acc b h
    rcases h with ⟨kv, hkv, -⟩
    cases hkv
  | cons hd tl ih =>
    intro acc b h
    obtain ⟨l, v⟩ := hd
    rw [extractHeadersLoop]
    simp only []
    by_cases hpre : headerLabelPrefix.isPrefixOf l = true
    · rw [if_pos hpre]
      by_cases hname : trimPrefixStr l headerLabelPrefix = []
      · rw [if_pos hname]
        refine ih acc true ?_
        rcases h with ⟨kv, hkv, hkv1, hkv2, hkv3, hkv4⟩
        rcases List.mem_cons.mp hkv with heq | hmem
        · rw [heq] at hkv2
          exact absurd hname hkv2
        · exact ⟨kv, hmem, hkv1, hkv2, hkv3, hkv4⟩
      · rw [if_neg hname]
        by_cases hsent : trimPrefixStr l headerLabelPrefix = "X-Empty".data ∧ v = []
        · rw [if_pos hsent]
          refine ih acc true ?_
          rcases h with ⟨kv, hkv, hkv1, hkv2, hkv3, hkv4⟩
          rcases List.mem_cons.mp hkv with heq | hmem
          · rw [heq] at hkv3
            exact absurd hsent hkv3
          · exact ⟨kv, hmem, hkv1, hkv2, hkv3, hkv4⟩
        · rw [if_neg hsent]
          by_cases hunres : headerValueUnresolved (expandEnvVars v envVars) = true
          · rw [if_pos hunres]
            exact ⟨_, rfl⟩
          · rw [if_neg hunres]
            refine ih _ true ?_
            rcases h with ⟨kv, hkv, hkv1, hkv2, hkv3, hkv4⟩
            rcases List.mem_cons.mp hkv with heq | hmem
            · rw [heq] at hkv4
              exact absurd hkv4 hunres
            · exact ⟨kv, hmem, hkv1, hkv2, hkv3, hkv4⟩
    · rw [if_neg hpre]
      refine ih acc b ?_
      rcases h with ⟨kv, hkv, hkv1, hkv2, hkv3, hkv4⟩
      rcases List.mem_cons.mp hkv with heq | hmem
      · rw [heq] at hkv1
        exact absurd hkv1 hpre
      · exact ⟨kv, hmem, hkv1, hkv2, hkv3, hkv4⟩

/-- `extractHeadersLoop` on fully-resolved labels: the result is the
accumulator followed by one entry per contributing label, and the flag
records whether any header-prefixed label occurred. -/
theorem extractHeadersLoop_ok_of_resolved (envVars : AList Str) :
    ∀ (labels : AList Str) (acc : AList Str) (b : Bool),
      (∀ kv ∈ labels, headerLabelPrefix.isPrefixOf kv.1 = true →
        trimPrefixStr kv.1 headerLabelPrefix ≠ [] →
        ¬(trimPrefixStr kv.1 headerLabelPrefix = "X-Empty".data ∧ kv.2 = []) →
        headerValueUnresolved (expandEnvVars kv.2 envVars) = false) →
      (∀ kv ∈ labels, headerLabelPrefix.isPrefixOf kv.1 = true →
        trimPrefixStr kv.1 headerLabelPrefix ∉ acc.map Prod.fst) →
      (labels.map Prod.fst).Nodup →
      extractHeadersLoop envVars labels acc b =
        .ok (acc ++ labels.filterMap (headerEntryContrib envVars),
          b || labels.any (fun kv => headerLabelPrefix.isPrefixOf kv.1)) := by
  intro labels
  induction labels with
  | nil =>
    intro acc b _ _ _
    rw [extractHeadersLoop]
    simp
  | cons hd tl ih =>
    intro acc b hres hfresh hnd
    obtain ⟨l, v⟩ := hd
    rw [List.map_cons] at hnd
    rcases List.nodup_cons.mp hnd with ⟨hlnotin, hndtl⟩
    rw [extractHeadersLoop]
    simp only []
    by_cases hpre : headerLabelPrefix.isPrefixOf l = true
    · rw [if_pos hpre]
      by_cases hname : trimPrefixStr l headerLabelPrefix = []
      · rw [if_pos hname]
        rw [ih acc true
          (fun kv hkv => hres kv (List.mem_cons_of_mem _ hkv))
          (fun kv hkv => hfresh kv (List.mem_cons_of_mem _ hkv)) hndtl]
        have hcontrib : headerEntryContrib envVars (l, v) = none := by
          rw [headerEntryContrib, if_pos hpre]
          simp only []
          rw [if_pos hname]
        rw [List.filterMap_cons, hcontrib]
        simp [hpre]
      · rw [if_neg hname]
        by_cases hsent : trimPrefixStr l headerLabelPrefix = "X-Empty".data ∧ v = []
        · rw [if_pos hsent]
          rw [ih acc true
            (fun kv hkv => hres kv (List.mem_cons_of_mem _ hkv))
            (fun kv hkv => hfresh kv (List.mem_cons_of_mem _ hkv)) hndtl]
          have hcontrib : headerEntryContrib envVars (l, v) = none := by
            rw [headerEntryContrib, if_pos hpre]
            simp only []
            rw [if_neg hname, if_pos hsent]
          rw [List.filterMap_cons, hcontrib]
          simp [hpre]
        · rw [if_neg hsent]
          have hunres : headerValueUnresolved (expandEnvVars v envVars) = false :=
            hres (l, v) (List.mem_cons_self _ _) hpre hname hsent
          rw [if_neg (by rw [hunres]; exact fun hc => Bool.noConfusion hc)]
          have hins : insertAL acc (trimPrefixStr l headerLabelPrefix)
              (expandEnvVars v envVars) =
              acc ++ [(trimPrefixStr l headerLabelPrefix, expandEnvVars v envVars)] :=
            insertAL_eq_append acc _ _ (hfresh (l, v) (List.mem_cons_self _ _) hpre)
          rw [hins]
          rw [ih (acc ++ [(trimPrefixStr l headerLabelPrefix, expandEnvVars v envVars)]) true
            (fun kv hkv => hres kv (List.mem_cons_of_mem _ hkv))
            (fun kv hkv hkvpre => by
              rw [List.map_append, List.map_cons]
              intro hmem
              rcases List.mem_append.mp hmem with hmem | hmem
              · exact hfresh kv (List.mem_cons_of_mem _ hkv) hkvpre hmem
              · rcases List.mem_cons.mp hmem with heq | habs
                · have hkeq : kv.1 = l := trimPrefixStr_inj hkvpre hpre heq
                  have hmemk : kv.1 ∈ tl.map Prod.fst := List.mem_map_of_mem Prod.fst hkv
                  rw [hkeq] at hmemk
                  exact hlnotin hmemk
                · cases habs) hndtl]
          have hcontrib : headerEntryContrib envVars (l, v) =
              some (trimPrefixStr l headerLabelPrefix, expandEnvVars v envVars) := by
            rw [headerEntryContrib, if_pos hpre]
            simp only []
            rw [if_neg hname, if_neg hsent]
          rw [List.filterMap_cons, hcontrib]
          simp [hpre]
    · rw [if_neg hpre]
      rw [ih acc b
        (fun kv hkv => hres kv (List.mem_cons_of_mem _ hkv))
        (fun kv hkv => hfresh kv (List.mem_cons_of_mem _ hkv)) hndtl]
      have hcontrib : headerEntryContrib envVars (l, v) = none := by
        rw [headerEntryContrib]
        rw [if_neg hpre]
      rw [List.filterMap_cons, hcontrib]
      have hpre' : headerLabelPrefix.isPrefixOf l = false := by
        revert hpre
        cases headerLabelPrefix.isPrefixOf l <;> simp
      simp [hpre']

theorem convertToMCPConfig_error_of_mem
    {servers : AList Service} {envVars : AList Str} {containerTool : Str}
    {acquire : Str → OAuthConfig → Except Str Str} {name : Str} {service : Service}
    (hmem : (name, service) ∈ servers)
    (hfail : ∃ e, convertService containerTool acquire name service envVars = .error e) :
    ∃ e, convertToMCPConfig servers envVars containerTool acquire = .error e := by
  induction servers with
  | nil => cases hmem
  | cons hd tl ih =>
    obtain ⟨n, s⟩ := hd
    rcases List.mem_cons.mp hmem with heq | hmem'
    · obtain ⟨e, he⟩ := hfail
      cases heq
      rw [convertToMCPConfig, he]
      exact ⟨e, rfl⟩
    · rw [convertToMCPConfig]
      cases hcs : convertService containerTool acquire n s envVars with
      | error e => exact ⟨e, rfl⟩
      | ok record =>
        obtain ⟨e, he⟩ := ih hmem'
        rw [he]
        exact ⟨e, rfl⟩

/-- A command that is remote as written stays remote after expansion:
neither `https://` nor `http://` contains `$`, so the prefix survives. -/
theorem isRemote_raw_implies_expanded (service : Service) (envVars : AList Str)
    (h : IsRemoteServer service = true) :
    IsRemoteServerWithEnvExpansion service envVars = true := by
  rw [IsRemoteServer, Bool.or_eq_true] at h
  rw [IsRemoteServerWithEnvExpansion, Bool.or_eq_true]
  rcases h with h | h
  · exact Or.inl (isPrefixOf_expandEnvVars (by decide) envVars h)
  · exact Or.inr (isPrefixOf_expandEnvVars (by decide) envVars h)

/-- When expansion fixes the command, the raw and the expansion-aware
classifiers agree. -/
theorem isRemote_raw_of_fixed {service : Service} {envVars : AList Str}
    (hexp : expandEnvVars service.command envVars = service.command)
    (hrem : IsRemoteServerWithEnvExpansion service envVars = true) :
    IsRemoteServer service = true := by
  rw [IsRemoteServerWithEnvExpansion] at hrem
  simp only [] at hrem
  rw [hexp] at hrem
  rw [IsRemoteServer]
  exact hrem

theorem remote_command_ne_nil {service : Service}
    (hraw : IsRemoteServer service = true) : service.command ≠ [] := by
  rw [IsRemoteServer, Bool.or_eq_true] at hraw
  rcases hraw with h | h
  · exact ne_nil_of_isPrefixOf (by decide) h
  · exact ne_nil_of_isPrefixOf (by decide) h

/-- Reflexivity of the comparator on the record the translator writes for a
headers-mode remote service, provided expansion fixes the command. -/
theorem compare_remote_refl_headers (name : Str) (service : Service)
    (envVars : AList Str) (containerTool : Str) (h : AList Str)
    (hexp : expandEnvVars service.command envVars = service.command)
    (hrem : IsRemoteServerWithEnvExpansion service envVars = true)
    (hH : UsesHeadersAuth service = true)
    (hx : ExtractHeaders service (mergeServiceEnv service envVars) = .ok h) :
    compareServerConfig name service
      { type' := "http".data, url := expandEnvVars service.command envVars, headers := h }
      envVars containerTool = ("configured".data, []) := by
  have hraw : IsRemoteServer service = true := isRemote_raw_of_fixed hexp hrem
  have hne : service.command ≠ [] := remote_command_ne_nil hraw
  rw [compareServerConfig]
  rw [if_neg (by
    rintro ⟨-, hu⟩
    simp only [hexp] at hu
    exact hne hu)]
  rw [if_pos hraw]
  rw [compareRemoteServers]
  simp only [hexp, hH, hx, compareHeaders_self (ExtractHeaders_ok_nodup hx)]
  simp

/-- Reflexivity of the comparator on the record the translator writes for
an OAuth-mode remote service: any bearer token passes the comparator's
check. -/
theorem compare_remote_refl_oauth (name : Str) (service : Service)
    (envVars : AList Str) (containerTool : Str) (accessToken : Str)
    (hexp : expandEnvVars service.command envVars = service.command)
    (hrem : IsRemoteServerWithEnvExpansion service envVars = true)
    (hH : UsesHeadersAuth service = false) :
    compareServerConfig name service
      { type' := "http".data, url := expandEnvVars service.command envVars
        headers := [("Authorization".data, "Bearer ".data ++ accessToken)] }
      envVars containerTool = ("configured".data, []) := by
  have hraw : IsRemoteServer service = true := isRemote_raw_of_fixed hexp hrem
  have hne : service.command ≠ [] := remote_command_ne_nil hraw
  rw [compareServerConfig]
  rw [if_neg (by
    rintro ⟨-, hu⟩
    simp only [hexp] at hu
    exact hne hu)]
  rw [if_pos hraw]
  rw [compareRemoteServers]
  simp only [hexp, hH]
  simp [lookupAL, isPrefixOf_append_self]

theorem getLast?_append_singleton {α : Type} (l : List α) (a : α) :
    (l ++ [a]).getLast? = some a := by
  rw [List.getLast?_append_of_ne_nil l (by simp)]
  rfl

theorem keys_map_expand (l : AList Str) (f : Str × Str → Str) :
    (l.map (fun kv => (kv.1, f kv))).map Prod.fst = l.map Prod.fst := by
  rw [List.map_map]
  rfl

/-- The raw classifier is false whenever the expansion-aware one is. -/
theorem isRemote_raw_false_of_expanded_false {service : Service} {envVars : AList Str}
    (hrem : IsRemoteServerWithEnvExpansion service envVars = false) :
    IsRemoteServer service = false := by
  cases h : IsRemoteServer service with
  | false => rfl
  | true => rw [isRemote_raw_implies_expanded service envVars h] at hrem; cases hrem

/-- Reflexivity of the comparator on the record the translator writes for a
local container service.  The record's `args` are stated with an arbitrary
`middle` between the fixed `run -i --rm` prefix and the expanded image (the
comparator only inspects the first three arguments, the last argument and
the length). -/
theorem compare_local_refl_container (name : Str) (service : Service)
    (envVars : AList Str) (containerTool : Str) (envField : AList Str)
    (middle : List Str)
    (himg : service.image ≠ [])
    (hrem : IsRemoteServerWithEnvExpansion service envVars = false)
    (hct : containerTool ≠ [])
    (henv : (service.environment.map Prod.fst).Nodup)
    (hef : envField = if service.environment ≠ [] then
      service.environment.map (fun kv => (kv.1, expandEnvVars kv.2 envVars)) else []) :
    compareServerConfig name service
      { command := containerTool
        args := "run".data :: "-i".data :: "--rm".data ::
          (middle ++ [expandEnvVars service.image envVars])
        env := envField }
      envVars containerTool = ("configured".data, []) := by
  have hraw : IsRemoteServer service = false := isRemote_raw_false_of_expanded_false hrem
  rw [compareServerConfig]
  rw [if_neg (by
    rintro ⟨hc, -⟩
    exact hct hc)]
  rw [if_neg (by rw [hraw]; exact fun hcontr => Bool.noConfusion hcontr)]
  rw [compareLocalServers]
  rw [if_pos himg]
  have henvcmp : compareEnvVars
      (service.environment.map (fun kv => (kv.1, expandEnvVars kv.2 envVars))) envField
      = true := by
    by_cases he : service.environment = []
    · rw [hef, if_neg (by simpa using he), he]
      rfl
    · rw [hef, if_pos he]
      exact compareEnvVars_self (by rw [keys_map_expand]; exact henv)
  have hlen : ¬(middle.length + 1 + 1 + 1 + 1 < 3) := by omega
  simp [henvcmp, hlen, List.enum, List.enumFrom, List.filterMap]
  rw [show ("--rm".data :: (middle ++ [expandEnvVars service.image envVars]) : List Str) =
    ("--rm".data :: middle) ++ [expandEnvVars service.image envVars] by simp]
  rw [getLast?_append_singleton]
  rfl

/-- Reflexivity of the comparator on the record the translator writes for a
local command service with a non-empty command line. -/
theorem compare_local_refl_command (name : Str) (service : Service)
    (envVars : AList Str) (containerTool : Str) (envField : AList Str)
    (c : Str) (restParts : List Str)
    (himg : service.image = [])
    (hrem : IsRemoteServerWithEnvExpansion service envVars = false)
    (hfields : fields service.command = c :: restParts)
    (henv : (service.environment.map Prod.fst).Nodup)
    (hef : envField = if service.environment ≠ [] then
      service.environment.map (fun kv => (kv.1, expandEnvVars kv.2 envVars)) else []) :
    compareServerConfig name service
      { command := c
        args := if restParts = [] then []
          else restParts.map (fun arg => expandEnvVars arg envVars)
        env := envField }
      envVars containerTool = ("configured".data, []) := by
  have hraw : IsRemoteServer service = false := isRemote_raw_false_of_expanded_false hrem
  have hcne : c ≠ [] := mem_fields_ne_nil (hfields ▸ List.mem_cons_self c restParts)
  rw [compareServerConfig]
  rw [if_neg (by
    rintro ⟨hc, -⟩
    exact hcne hc)]
  rw [if_neg (by rw [hraw]; exact fun hcontr => Bool.noConfusion hcontr)]
  rw [compareLocalServers]
  rw [if_neg (by simpa using himg)]
  rw [hfields]
  have henvcmp : compareEnvVars
      (service.environment.map (fun kv => (kv.1, expandEnvVars kv.2 envVars))) envField
      = true := by
    by_cases he : service.environment = []
    · rw [hef, if_neg (by simpa using he), he]
      rfl
    · rw [hef, if_pos he]
      exact compareEnvVars_self (by rw [keys_map_expand]; exact henv)
  have hargs : compareStringSlices (restParts.map (fun arg => expandEnvVars arg envVars))
      (if restParts = [] then []
        else restParts.map (fun arg => expandEnvVars arg envVars)) = true := by
    by_cases hrp : restParts = []
    · rw [if_pos hrp, hrp]
      rfl
    · rw [if_neg hrp]
      exact compareStringSlices_self _
  simp [henvcmp, hargs]

/-- C1 (amended).  Comparator reflexivity relative to the code's comparator:
for every service whose translation succeeds (valid and fully resolvable),
whose `command` is fixed by placeholder expansion (in particular any command
without placeholders — the counterexample shows the unamended claim fails
when the expected URL would need expansion, because `compareRemoteServers`
compares the deployed URL against the **raw** command), with a non-empty
container tool, unique environment keys (a Go map invariant) and a
non-empty command line in the plain-command case, translating and then
comparing the resulting record against the same service yields status
`configured` with an empty difference list; in the OAuth case this holds
for any acquired token, i.e. for any `Bearer `-prefixed Authorization
value. -/
theorem convert_then_compare_is_configured
    (name : Str) (service : Service) (envVars : AList Str) (containerTool : Str)
    (acquire : Str → OAuthConfig → Except Str Str) (record : MCPServer)
    (hexp : expandEnvVars service.command envVars = service.command)
    (henv : (service.environment.map Prod.fst).Nodup)
    (hct : containerTool ≠ [])
    (hnz : service.image = [] → IsRemoteServerWithEnvExpansion service envVars = false →
      fields service.command ≠ [])
    (hok : convertService containerTool acquire name service envVars = .ok record) :
    compareServerConfig name service record envVars containerTool
      = ("configured".data, []) := by
  rw [convertService] at hok
  by_cases hrem : IsRemoteServerWithEnvExpansion service envVars = true
  · rw [if_pos hrem] at hok
    simp only [] at hok
    by_cases hH : UsesHeadersAuth service = true
    · rw [if_pos hH] at hok
      cases hx : ExtractHeaders service (mergeServiceEnv service envVars) with
      | error e => rw [hx] at hok; cases hok
      | ok h =>
        rw [hx] at hok
        simp only [] at hok
        injection hok with hrec
        subst hrec
        exact compare_remote_refl_headers name service envVars containerTool h
          hexp hrem hH hx
    · have hHf : UsesHeadersAuth service = false := by
        revert hH
        cases UsesHeadersAuth service <;> simp
      rw [if_neg hH] at hok
      cases hoc : ExtractOAuthConfig service (mergeServiceEnv service envVars) with
      | error e => rw [hoc] at hok; cases hok
      | ok oauthConfig =>
        rw [hoc] at hok
        simp only [] at hok
        cases hacq : acquire name oauthConfig with
        | error e => rw [hacq] at hok; cases hok
        | ok accessToken =>
          rw [hacq] at hok
          simp only [] at hok
          injection hok with hrec
          subst hrec
          exact compare_remote_refl_oauth name service envVars containerTool accessToken
            hexp hrem hHf
  · have hremf : IsRemoteServerWithEnvExpansion service envVars = false := by
      revert hrem
      cases IsRemoteServerWithEnvExpansion service envVars <;> simp
    rw [if_neg hrem] at hok
    simp only [] at hok
    by_cases himg : service.image ≠ []
    · by_cases he : service.environment ≠ []
      · rw [if_pos he, if_pos himg] at hok
        injection hok with hrec
        subst hrec
        rw [show (["run".data, "-i".data, "--rm".data] ++
            (service.environment.map
              (fun kv => ["-e".data, kv.1 ++ "=".data ++ expandEnvVars kv.2 envVars])).flatten ++
            (service.volumes.map (fun v => ["-v".data, expandEnvVars v envVars])).flatten ++
            [expandEnvVars service.image envVars] : List Str) =
          "run".data :: "-i".data :: "--rm".data ::
            (((service.environment.map
              (fun kv => ["-e".data, kv.1 ++ "=".data ++ expandEnvVars kv.2 envVars])).flatten ++
              (service.volumes.map (fun v => ["-v".data, expandEnvVars v envVars])).flatten) ++
              [expandEnvVars service.image envVars]) from by simp]
        exact compare_local_refl_container name service envVars containerTool _ _
          himg hremf hct henv (if_pos he).symm
      · rw [if_neg he, if_pos himg] at hok
        injection hok with hrec
        subst hrec
        rw [show (["run".data, "-i".data, "--rm".data] ++
            (service.environment.map
              (fun kv => ["-e".data, kv.1 ++ "=".data ++ expandEnvVars kv.2 envVars])).flatten ++
            (service.volumes.map (fun v => ["-v".data, expandEnvVars v envVars])).flatten ++
            [expandEnvVars service.image envVars] : List Str) =
          "run".data :: "-i".data :: "--rm".data ::
            (((service.environment.map
              (fun kv => ["-e".data, kv.1 ++ "=".data ++ expandEnvVars kv.2 envVars])).flatten ++
              (service.volumes.map (fun v => ["-v".data, expandEnvVars v envVars])).flatten) ++
              [expandEnvVars service.image envVars]) from by simp]
        exact compare_local_refl_container name service envVars containerTool _ _
          himg hremf hct henv (if_neg he).symm
    · have himge : service.image = [] := not_not.mp himg
      have hfne := hnz himge hremf
      cases hfields : fields service.command with
      | nil => exact absurd hfields hfne
      | cons c restParts =>
        rw [if_neg himg, hfields] at hok
        by_cases he : service.environment ≠ []
        · rw [if_pos he] at hok
          injection hok with hrec
          subst hrec
          exact compare_local_refl_command name service envVars containerTool _ c restParts
            himge hremf hfields henv (if_pos he).symm
        · rw [if_neg he] at hok
          injection hok with hrec
          subst hrec
          exact compare_local_refl_command name service envVars containerTool _ c restParts
            himge hremf hfields henv (if_neg he).symm

/-! ## Claim C2: default-inclusion invariant of the profile filter -/

/-- C2: for every parsed document and every profile string, every service
returned by `filterServers doc "" false` (no `mcp.profile` label, or a
profile list containing the trimmed token `default`) is also in
`filterServers doc P false`; and for non-empty `P` the result is exactly
the services that are default or whose profile list contains the exact
trimmed token `P`. -/
theorem filterServers_default_inclusion (services : AList Service) (profile : Str) :
    (∀ e, e ∈ filterServers services [] false → e ∈ filterServers services profile false) ∧
    (profile ≠ [] → ∀ e, e ∈ filterServers services profile false ↔
      e ∈ services ∧
        (isDefaultService e.2 = true ∨ profileListContains e.2 profile = true)) := by
  have hfilt : ∀ (p : Str),
      filterServers services p false = services.filter (fun kv => filterPred p kv.2) := by
    intro p
    rfl
  constructor
  · intro e he
    rw [hfilt] at he ⊢
    rcases List.mem_filter.mp he with ⟨hmem, hpred⟩
    refine List.mem_filter.mpr ⟨hmem, ?_⟩
    have hdef : isDefaultService e.2 = true := by
      have hp' : filterPred [] e.2 = true := hpred
      rw [filterPred, if_pos rfl] at hp'
      exact hp'
    show filterPred profile e.2 = true
    rw [filterPred]
    by_cases hp : profile = []
    · rw [if_pos hp]
      exact hdef
    · rw [if_neg hp, hdef, Bool.true_or]
  · intro hp e
    rw [hfilt]
    rw [List.mem_filter]
    have hpredeq : (filterPred profile e.2 = true) ↔
        (isDefaultService e.2 = true ∨ profileListContains e.2 profile = true) := by
      rw [filterPred, if_neg hp, Bool.or_eq_true]
    exact and_congr_right (fun _ => hpredeq)

/-- C2 witness: in the spec's scenario-5 document, the unlabelled service
`a` is kept by the default filter and therefore also under profile
`programming`, and membership under `programming` matches the union
characterization. -/
theorem filterServers_default_inclusion_witness :
    ("a".data, ({} : Service)) ∈ filterServers
      [("a".data, {}), ("b".data, { labels := [("mcp.profile".data, "programming".data)] }),
        ("c".data, { labels := [("mcp.profile".data, "default,programming".data)] })]
      "programming".data false ∧
    (("b".data, ({ labels := [("mcp.profile".data, "programming".data)] } : Service)) ∈
      filterServers
        [("a".data, {}), ("b".data, { labels := [("mcp.profile".data, "programming".data)] }),
          ("c".data, { labels := [("mcp.profile".data, "default,programming".data)] })]
        "programming".data false) :=
  ⟨(filterServers_default_inclusion _ "programming".data).1 _ (by decide),
    ((filterServers_default_inclusion _ "programming".data).2 (by decide) _).mpr
      (by decide)⟩

/-! ## Claim C6: determinism of `expandEnvVars` -/

/-- C6 counterexample: `expandEnvVars` is **not** independent of the
iteration order of the environment map — precisely in the two cases the
claim highlights.  With the same map `{A ↦ "${B}", B ↦ "z"}` in its two
iteration orders, expanding `"${A}"` yields `"z"` in one order and
`"${B}"` in the other (one value's expansion introduces another key's
placeholder); with `{FOO ↦ "1", FOOBAR ↦ "2"}` (one key a proper prefix of
the other), expanding `"$FOOBAR"` yields `"1BAR"` versus `"2"`.  Since Go
randomizes map iteration order between runs, two runs on the same inputs
can produce different outputs. -/
theorem expandEnvVars_order_dependent :
    ([("A".data, "${B}".data), ("B".data, "z".data)] : AList Str).Perm
      [("B".data, "z".data), ("A".data, "${B}".data)] ∧
    expandEnvVars "${A}".data [("A".data, "${B}".data), ("B".data, "z".data)] = "z".data ∧
    expandEnvVars "${A}".data [("B".data, "z".data), ("A".data, "${B}".data)] = "${B}".data ∧
    "z".data ≠ "${B}".data ∧
    ([("FOO".data, "1".data), ("FOOBAR".data, "2".data)] : AList Str).Perm
      [("FOOBAR".data, "2".data), ("FOO".data, "1".data)] ∧
    expandEnvVars "$FOOBAR".data
      [("FOO".data, "1".data), ("FOOBAR".data, "2".data)] = "1BAR".data ∧
    expandEnvVars "$FOOBAR".data
      [("FOOBAR".data, "2".data), ("FOO".data, "1".data)] = "2".data :=
  ⟨List.Perm.swap _ _ _, by decide, by decide, by decide,
    List.Perm.swap _ _ _, by decide, by decide⟩

/-- C6 (amended): `expandEnvVars` is deterministic as a function of the
input string and the iteration order (the association list); moreover it is
iteration-order-independent on every input containing no `$`, where it is
the identity for any two orders of the same map.  The counterexample shows
that full run-to-run determinism fails exactly when one value's expansion
introduces another key's placeholder or one key is a proper prefix of
another, because Go's map iteration order varies between runs. -/
theorem expandEnvVars_deterministic_no_dollar (l1 l2 : AList Str) (s : Str)
    (_hperm : l1.Perm l2) (hs : '$' ∉ s) :
    expandEnvVars s l1 = expandEnvVars s l2 ∧ expandEnvVars s l1 = s := by
  have h1 := expandEnvVars_of_no_dollar l1 hs
  have h2 := expandEnvVars_of_no_dollar l2 hs
  exact ⟨h1.trans h2.symm, h1⟩

/-- C6 witness: a `$`-free input expands identically (to itself) under two
iteration orders of the same two-entry map. -/
theorem expandEnvVars_deterministic_no_dollar_witness :
    expandEnvVars "uvx mcp-server-time".data
        [("A".data, "x".data), ("B".data, "y".data)] =
      expandEnvVars "uvx mcp-server-time".data
        [("B".data, "y".data), ("A".data, "x".data)] ∧
    expandEnvVars "uvx mcp-server-time".data
        [("A".data, "x".data), ("B".data, "y".data)] = "uvx mcp-server-time".data :=
  expandEnvVars_deterministic_no_dollar _ _ _ (List.Perm.swap _ _ _) (by decide)

/-! ## Claim C10: the dotenv quote-stripping panic -/

/-- C10: evaluating the dotenv scanner at the failing input.  A line whose
trimmed value is a single quote character (`"` or `'`) passes both the
`HasPrefix` and `HasSuffix` quote tests, so the code evaluates
`value[1:len(value)-1]` = `value[1:0]`, an out-of-bounds Go slice
(`none` in the model — a runtime panic), and the whole load aborts instead
of continuing with the remaining lines; a properly quoted two-character
value is stripped normally. -/
theorem loadEnvVars_single_quote_panics :
    loadEnvVarsLines [] ["KEY=\"".data] = none ∧
    loadEnvVarsLines [] ["KEY='".data] = none ∧
    loadEnvVarsLines [] ["KEY=\"\"".data] = some [("KEY".data, [])] ∧
    loadEnvVarsLines [] ["A=1".data, "KEY=\"".data, "B=2".data] = none := by
  decide

/-! ## Claim C7: auth-mode validation -/

/-- C7: `ValidateRemoteServerAuth` succeeds iff exactly one auth mode is
configured — headers mode (some `mcp.header.*` label, no non-empty
`mcp.grant-type`) or OAuth mode (non-empty `mcp.grant-type`, no header
labels, all four OAuth labels present and the grant type exactly
`client_credentials`); it errors when neither or both modes are present,
when required OAuth labels are absent (naming the missing ones,
comma-joined, in slice order), and when the grant type differs from
`client_credentials` (naming the offending value).  (The code's presence
test for OAuth mode is `Labels["mcp.grant-type"] != ""`, i.e. a non-empty
value — `grantTypeValue`.) -/
theorem validateRemoteServerAuth_characterization (name : Str) (service : Service) :
    (ValidateRemoteServerAuth name service = none ↔
      (UsesHeadersAuth service = true ∧ grantTypeValue service = []) ∨
      (UsesHeadersAuth service = false ∧ grantTypeValue service ≠ [] ∧
        oauthRequiredMissing service = [] ∧
        grantTypeValue service = "client_credentials".data)) ∧
    (UsesHeadersAuth service = false → grantTypeValue service = [] →
      ValidateRemoteServerAuth name service =
        some ("remote server '".data ++ name ++
          "' must have either OAuth labels (mcp.grant-type, mcp.token-endpoint, mcp.client-id, mcp.client-secret) or headers labels (mcp.header.*)".data)) ∧
    (UsesHeadersAuth service = true → grantTypeValue service ≠ [] →
      ValidateRemoteServerAuth name service =
        some ("remote server '".data ++ name ++
          "' cannot have both OAuth labels and headers labels".data)) ∧
    (UsesHeadersAuth service = false → grantTypeValue service ≠ [] →
      oauthRequiredMissing service ≠ [] →
      ValidateRemoteServerAuth name service =
        some ("remote server '".data ++ name ++ "' missing required OAuth labels: ".data ++
          joinSep ", ".data (oauthRequiredMissing service))) ∧
    (UsesHeadersAuth service = false → grantTypeValue service ≠ [] →
      oauthRequiredMissing service = [] →
      grantTypeValue service ≠ "client_credentials".data →
      ValidateRemoteServerAuth name service =
        some ("remote server '".data ++ name ++
          "' must use 'client_credentials' grant type, got: ".data ++
          grantTypeValue service)) := by
  cases hH : UsesHeadersAuth service with
  | true =>
    by_cases hg : grantTypeValue service = []
    · refine ⟨?_, ?_, ?_, ?_, ?_⟩
      · rw [ValidateRemoteServerAuth]
        simp [hH, hg]
      · intro hcontr
        cases hcontr
      · intro _ hcontr
        exact absurd hg hcontr
      · intro hcontr
        cases hcontr
      · intro hcontr
        cases hcontr
    · refine ⟨?_, ?_, ?_, ?_, ?_⟩
      · rw [ValidateRemoteServerAuth]
        simp [hH, hg]
      · intro hcontr
        cases hcontr
      · intro _ _
        rw [ValidateRemoteServerAuth]
        simp [hH, hg]
      · intro hcontr
        cases hcontr
      · intro hcontr
        cases hcontr
  | false =>
    by_cases hg : grantTypeValue service = []
    · refine ⟨?_, ?_, ?_, ?_, ?_⟩
      · rw [ValidateRemoteServerAuth]
        simp [hH, hg]
      · intro _ _
        rw [ValidateRemoteServerAuth]
        simp [hH, hg]
      · intro hcontr
        cases hcontr
      · intro _ hcontr
        exact absurd hg hcontr
      · intro _ hcontr
        exact absurd hg hcontr
    · by_cases hm : oauthRequiredMissing service = []
      · by_cases hcc : grantTypeValue service = "client_credentials".data
        · refine ⟨?_, ?_, ?_, ?_, ?_⟩
          · rw [ValidateRemoteServerAuth]
            simp [hH, hg, hm, hcc]
          · intro _ hcontr
            exact absurd hcontr hg
          · intro hcontr
            cases hcontr
          · intro _ _ hcontr
            exact absurd hm hcontr
          · intro _ _ _ hcontr
            exact absurd hcc hcontr
        · refine ⟨?_, ?_, ?_, ?_, ?_⟩
          · rw [ValidateRemoteServerAuth]
            simp [hH, hg, hm, hcc]
          · intro _ hcontr
            exact absurd hcontr hg
          · intro hcontr
            cases hcontr
          · intro _ _ hcontr
            exact absurd hm hcontr
          · intro _ _ _ _
            rw [ValidateRemoteServerAuth]
            simp [hH, hg, hm, hcc]
      · refine ⟨?_, ?_, ?_, ?_, ?_⟩
        · rw [ValidateRemoteServerAuth]
          simp [hH, hg, hm]
        · intro _ hcontr
          exact absurd hcontr hg
        · intro hcontr
          cases hcontr
        · intro _ _ _
          rw [ValidateRemoteServerAuth]
          simp [hH, hg, hm]
        · intro _ _ hcontr
          exact absurd hcontr hm

/-- C7 witness: the spec's scenario 4 — a service with only
`mcp.grant-type` fails naming the three other OAuth labels, comma-joined;
and a service with exactly one auth mode validates. -/
theorem validateRemoteServerAuth_witness :
    ValidateRemoteServerAuth "remote2".data
      { command := "https://api.example.com/mcp".data
        labels := [("mcp.grant-type".data, "client_credentials".data)] } =
      some ("remote server 'remote2' missing required OAuth labels: mcp.token-endpoint, mcp.client-id, mcp.client-secret".data) ∧
    ValidateRemoteServerAuth "remote1".data
      { command := "https://api.example.com/mcp".data
        labels := [("mcp.header.Authorization".data, "Bearer abc".data)] } = none :=
  ⟨by
    have h := (validateRemoteServerAuth_characterization "remote2".data
      { command := "https://api.example.com/mcp".data
        labels := [("mcp.grant-type".data, "client_credentials".data)] }).2.2.2.1
      (by decide) (by decide) (by decide)
    rw [h]
    decide,
  by
    have h := (validateRemoteServerAuth_characterization "remote1".data
      { command := "https://api.example.com/mcp".data
        labels := [("mcp.header.Authorization".data, "Bearer abc".data)] }).1.mpr
      (Or.inl (by decide))
    exact h⟩

/-! ## Claim C8: header extraction -/

/-- C8: for every service (with unique label keys, a Go map invariant) and
environment map, `ExtractHeaders` fails when the service has zero
`mcp.header.*` labels; it fails whenever some genuine header label's
expanded value still contains unresolved placeholder syntax (the code's
test `headerValueUnresolved`: contains `${`, or contains `$` while not at
the safely-ignorable leading position); and when every such value resolves,
it returns exactly one entry per `mcp.header.<Name>` label with non-empty
suffix, mapping `<Name>` to the expanded value, skipping empty-suffix
labels and dropping the `X-Empty` sentinel with empty value
(`headerEntryContrib`). -/
theorem extractHeaders_characterization (service : Service) (envVars : AList Str)
    (hnd : (service.labels.map Prod.fst).Nodup) :
    ((∀ kv ∈ service.labels, headerLabelPrefix.isPrefixOf kv.1 = false) →
      ExtractHeaders service envVars =
        .error "no headers found (expected mcp.header.* labels)".data) ∧
    ((∃ kv ∈ service.labels, headerLabelPrefix.isPrefixOf kv.1 = true ∧
        trimPrefixStr kv.1 headerLabelPrefix ≠ [] ∧
        ¬(trimPrefixStr kv.1 headerLabelPrefix = "X-Empty".data ∧ kv.2 = []) ∧
        headerValueUnresolved (expandEnvVars kv.2 envVars) = true) →
      ∃ e, ExtractHeaders service envVars = .error e) ∧
    ((∃ kv ∈ service.labels, headerLabelPrefix.isPrefixOf kv.1 = true) →
      (∀ kv ∈ service.labels, headerLabelPrefix.isPrefixOf kv.1 = true →
        trimPrefixStr kv.1 headerLabelPrefix ≠ [] →
        ¬(trimPrefixStr kv.1 headerLabelPrefix = "X-Empty".data ∧ kv.2 = []) →
        headerValueUnresolved (expandEnvVars kv.2 envVars) = false) →
      ExtractHeaders service envVars =
        .ok (service.labels.filterMap (headerEntryContrib envVars))) := by
  refine ⟨?_, ?_, ?_⟩
  · intro hnone
    rw [ExtractHeaders]
    rw [extractHeadersLoop_no_headers envVars service.labels [] false hnone]
    rfl
  · intro hex
    rcases extractHeadersLoop_error_of_unresolved envVars service.labels [] false hex
      with ⟨e, he⟩
    rw [ExtractHeaders, he]
    exact ⟨e, rfl⟩
  · intro hex hres
    rw [ExtractHeaders]
    rw [extractHeadersLoop_ok_of_resolved envVars service.labels [] false hres
      (fun kv _ _ => List.not_mem_nil _) hnd]
    have hany : service.labels.any (fun kv => headerLabelPrefix.isPrefixOf kv.1) = true := by
      rcases hex with ⟨kv, hkv, hpre⟩
      exact List.any_eq_true.mpr ⟨kv, hkv, hpre⟩
    rw [hany]
    rfl

/-- C8 witness: a service with an expandable header, an empty-suffix label
and the `X-Empty` sentinel yields exactly the one expanded header; an
unresolved value fails; a service with no header labels fails. -/
theorem extractHeaders_characterization_witness :
    ExtractHeaders
      { labels := [("mcp.header.Authorization".data, "Bearer ${API_TOKEN}".data),
          ("mcp.header.".data, "v".data), ("mcp.header.X-Empty".data, [])] }
      [("API_TOKEN".data, "secret123".data)] =
      .ok [("Authorization".data, "Bearer secret123".data)] ∧
    (∃ e, ExtractHeaders
      { labels := [("mcp.header.Authorization".data, "Bearer ${UNDEF}".data)] }
      [] = .error e) ∧
    ExtractHeaders { labels := [("mcp.profile".data, "default".data)] } [] =
      .error "no headers found (expected mcp.header.* labels)".data := by
  refine ⟨?_, ?_, ?_⟩
  · have h := (extractHeaders_characterization
      { labels := [("mcp.header.Authorization".data, "Bearer ${API_TOKEN}".data),
          ("mcp.header.".data, "v".data), ("mcp.header.X-Empty".data, [])] }
      [("API_TOKEN".data, "secret123".data)] (by decide)).2.2
      ⟨("mcp.header.Authorization".data, "Bearer ${API_TOKEN}".data), by decide, by decide⟩
      (by decide)
    rw [h]
    exact congrArg Except.ok (by decide)
  · exact (extractHeaders_characterization
      { labels := [("mcp.header.Authorization".data, "Bearer ${UNDEF}".data)] }
      [] (by decide)).2.1
      ⟨("mcp.header.Authorization".data, "Bearer ${UNDEF}".data), by decide, by decide,
        by decide, by decide, by decide⟩
  · exact (extractHeaders_characterization
      { labels := [("mcp.profile".data, "default".data)] } [] (by decide)).1
      (by decide)

/-! ## Claim C9: container translation shape -/

/-- C9: for every local-container service (non-empty `image`, not
classified remote after expansion), the translated record's command is the
configured container tool (`resolveContainerTool` of the CLI config value,
`docker` when unset) and its args are `run -i --rm`, then a
`-e KEY=expandedValue` pair per environment entry, then a
`-v expandedVolume` pair per volume spec, ending with the expanded image as
the last argument; and whenever the service has environment entries the
record's `env` is that map with every value fully expanded. -/
theorem convertService_container_shape
    (name : Str) (service : Service) (envVars : AList Str) (cliContainerTool : Str)
    (acquire : Str → OAuthConfig → Except Str Str)
    (himg : service.image ≠ [])
    (hrem : IsRemoteServerWithEnvExpansion service envVars = false) :
    convertService (resolveContainerTool cliContainerTool) acquire name service envVars =
      .ok { command := resolveContainerTool cliContainerTool
            args := ["run".data, "-i".data, "--rm".data] ++
              (service.environment.map (fun kv =>
                ["-e".data, kv.1 ++ "=".data ++ expandEnvVars kv.2 envVars])).flatten ++
              (service.volumes.map (fun v => ["-v".data, expandEnvVars v envVars])).flatten ++
              [expandEnvVars service.image envVars]
            env := if service.environment ≠ [] then
              service.environment.map (fun kv => (kv.1, expandEnvVars kv.2 envVars))
              else [] } ∧
    resolveContainerTool [] = "docker".data := by
  constructor
  · rw [convertService]
    rw [if_neg (by rw [hrem]; exact fun hc => Bool.noConfusion hc)]
    simp only []
    rw [if_pos himg]
    by_cases he : service.environment ≠ []
    · rw [if_pos he, if_pos he]
    · rw [if_neg he, if_neg he]
  · rfl

/-- C9 witness: the spec's scenario-2 container service translated with the
default container tool. -/
theorem convertService_container_shape_witness :
    convertService (resolveContainerTool []) (fun _ _ => .error [])
      "weather".data
      { image := "weather-mcp:${VERSION}".data
        environment := [("API_KEY".data, "${KEY}".data)]
        volumes := ["/host:/container".data] }
      [("VERSION".data, "v2.1.0".data), ("KEY".data, "secret".data)] =
      .ok { command := resolveContainerTool []
            args := ["run".data, "-i".data, "--rm".data] ++
              (([("API_KEY".data, "${KEY}".data)] : AList Str).map (fun kv =>
                ["-e".data, kv.1 ++ "=".data ++ expandEnvVars kv.2
                  [("VERSION".data, "v2.1.0".data), ("KEY".data, "secret".data)]])).flatten ++
              ((["/host:/container".data] : List Str).map (fun v =>
                ["-v".data, expandEnvVars v
                  [("VERSION".data, "v2.1.0".data), ("KEY".data, "secret".data)]])).flatten ++
              [expandEnvVars "weather-mcp:${VERSION}".data
                [("VERSION".data, "v2.1.0".data), ("KEY".data, "secret".data)]]
            env := if ([("API_KEY".data, "${KEY}".data)] : AList Str) ≠ [] then
              ([("API_KEY".data, "${KEY}".data)] : AList Str).map (fun kv =>
                (kv.1, expandEnvVars kv.2
                  [("VERSION".data, "v2.1.0".data), ("KEY".data, "secret".data)]))
              else [] } ∧
    resolveContainerTool [] = "docker".data :=
  convertService_container_shape "weather".data
    { image := "weather-mcp:${VERSION}".data
      environment := [("API_KEY".data, "${KEY}".data)]
      volumes := ["/host:/container".data] }
    [("VERSION".data, "v2.1.0".data), ("KEY".data, "secret".data)] []
    (fun _ _ => .error []) (by decide) (by decide)

/-! ## Claim C1: comparator reflexivity -/

/-- C1 counterexample: for a fully-resolvable headers-mode remote service
whose command contains a placeholder, translating and immediately comparing
does **not** yield `configured`: the translator writes the expanded URL but
`compareRemoteServers` compares it against the raw `command` (no
expansion), producing a URL-mismatch difference — so the comparator's
expected URL is not `expand(s.command, env)` as the claim states. -/
theorem convert_then_compare_not_reflexive :
    convertService "docker".data (fun _ _ => .error []) "remote1".data
      { command := "https://x.example/${P}".data
        labels := [("mcp.header.Authorization".data, "Bearer abc".data)] }
      [("P".data, "v1".data)] =
      .ok { type' := "http".data, url := "https://x.example/v1".data
            headers := [("Authorization".data, "Bearer abc".data)] } ∧
    compareServerConfig "remote1".data
      { command := "https://x.example/${P}".data
        labels := [("mcp.header.Authorization".data, "Bearer abc".data)] }
      { type' := "http".data, url := "https://x.example/v1".data
        headers := [("Authorization".data, "Bearer abc".data)] }
      [("P".data, "v1".data)] "docker".data =
      ("different".data,
        ["URL mismatch: expected 'https://x.example/${P}', got 'https://x.example/v1'".data]) ∧
    ("different".data : Str) ≠ "configured".data :=
  ⟨rfl, by decide, by decide⟩

/-- C1 (amended) witness: a placeholder-free local-command service
translates and compares back to `configured` with zero differences. -/
theorem convert_then_compare_is_configured_witness :
    compareServerConfig "time".data
      { command := "uvx mcp-server-time --local-timezone=America/New_York".data }
      { command := "uvx".data
        args := ["mcp-server-time".data, "--local-timezone=America/New_York".data] }
      [] "docker".data = ("configured".data, []) :=
  convert_then_compare_is_configured "time".data
    { command := "uvx mcp-server-time --local-timezone=America/New_York".data }
    [] "docker".data (fun _ _ => .error [])
    { command := "uvx".data
      args := ["mcp-server-time".data, "--local-timezone=America/New_York".data] }
    (by decide) (by decide) (by decide) (by decide) rfl

/-! ## Claim C3: remote classification and expansion -/

/-- C3 counterexample: the status comparator does not classify via the
expanded command.  The service `command: "${REMOTE_URL}"` with `REMOTE_URL`
bound to an https URL is remote under the expansion-aware classifier, yet
`IsRemoteServer` (the raw-prefix check the comparator uses) says local, and
`compareServerConfig` takes the local branch — its result differs from the
remote comparison the claim mandates. -/
theorem comparator_classifies_raw :
    IsRemoteServerWithEnvExpansion
      { command := "${REMOTE_URL}".data
        labels := [("mcp.header.Authorization".data, "Bearer abc".data)] }
      [("REMOTE_URL".data, "https://api.example.com/mcp".data)] = true ∧
    IsRemoteServer
      { command := "${REMOTE_URL}".data
        labels := [("mcp.header.Authorization".data, "Bearer abc".data)] } = false ∧
    compareServerConfig "remote1".data
      { command := "${REMOTE_URL}".data
        labels := [("mcp.header.Authorization".data, "Bearer abc".data)] }
      { type' := "http".data, url := "https://api.example.com/mcp".data
        headers := [("Authorization".data, "Bearer abc".data)] }
      [("REMOTE_URL".data, "https://api.example.com/mcp".data)] "docker".data =
      compareLocalServers "remote1".data
        { command := "${REMOTE_URL}".data
          labels := [("mcp.header.Authorization".data, "Bearer abc".data)] }
        { type' := "http".data, url := "https://api.example.com/mcp".data
          headers := [("Authorization".data, "Bearer abc".data)] }
        [("REMOTE_URL".data, "https://api.example.com/mcp".data)] "docker".data ∧
    compareServerConfig "remote1".data
      { command := "${REMOTE_URL}".data
        labels := [("mcp.header.Authorization".data, "Bearer abc".data)] }
      { type' := "http".data, url := "https://api.example.com/mcp".data
        headers := [("Authorization".data, "Bearer abc".data)] }
      [("REMOTE_URL".data, "https://api.example.com/mcp".data)] "docker".data ≠
      compareRemoteServers
        { command := "${REMOTE_URL}".data
          labels := [("mcp.header.Authorization".data, "Bearer abc".data)] }
        { type' := "http".data, url := "https://api.example.com/mcp".data
          headers := [("Authorization".data, "Bearer abc".data)] }
        [("REMOTE_URL".data, "https://api.example.com/mcp".data)] :=
  ⟨by decide, by decide, by decide, by decide⟩

/-- C3 (amended): classification after expansion holds at the translator
and `set`-validation sites, which use `IsRemoteServerWithEnvExpansion`
(modelled from the spec, its definition being absent from the sources), and
a command that is remote as written stays remote after expansion; but the
status comparator classifies by the **raw** command prefix
(`IsRemoteServer`): on any non-zero deployed record it delegates to the
remote comparison iff the unexpanded command starts with `http://` or
`https://`, so `'${REMOTE_URL}'` bound to an https URL is compared as a
local service there. -/
theorem classifier_sites_amended (service : Service) (envVars : AList Str) :
    (IsRemoteServer service = true → IsRemoteServerWithEnvExpansion service envVars = true) ∧
    (∀ (name : Str) (deployed : MCPServer) (containerTool : Str),
      ¬(deployed.command = [] ∧ deployed.url = []) →
      compareServerConfig name service deployed envVars containerTool =
        if IsRemoteServer service then compareRemoteServers service deployed envVars
        else compareLocalServers name service deployed envVars containerTool) := by
  refine ⟨isRemote_raw_implies_expanded service envVars, ?_⟩
  intro name deployed containerTool hnz
  rw [compareServerConfig, if_neg hnz]

/-- C3 (amended) witness: a literal https command is remote both raw and
expanded, and the comparator on a non-zero record follows the raw
classifier. -/
theorem classifier_sites_amended_witness :
    IsRemoteServerWithEnvExpansion
      { command := "https://api.example.com/mcp".data } [] = true ∧
    compareServerConfig "s".data { command := "uvx x".data }
      { command := "uvx".data, args := ["x".data] } [] "docker".data =
      (if IsRemoteServer { command := "uvx x".data } then
        compareRemoteServers { command := "uvx x".data }
          { command := "uvx".data, args := ["x".data] } []
      else compareLocalServers "s".data { command := "uvx x".data }
        { command := "uvx".data, args := ["x".data] } [] "docker".data) :=
  ⟨(classifier_sites_amended { command := "https://api.example.com/mcp".data } []).1
      (by decide),
    (classifier_sites_amended { command := "uvx x".data } []).2 "s".data
      { command := "uvx".data, args := ["x".data] } "docker".data (by decide)⟩

/-! ## Claim C4: load errors in the status pipeline -/

theorem status_pair_ne_unknown (c : Prop) [Decidable c] (l : List Str) :
    ((if c then (("different".data : Str), l)
      else (("configured".data : Str), ([] : List Str))) : Str × List Str).1
      ≠ "unknown".data := by
  by_cases h : c
  · rw [if_pos h]
    show ("different".data : Str) ≠ "unknown".data
    decide
  · rw [if_neg h]
    show ("configured".data : Str) ≠ "unknown".data
    decide

/-- The comparator never produces the status `unknown`: its three branches
yield `not-configured`, or the `different`/`configured` pair of the remote
or local comparison. -/
theorem compareServerConfig_status_ne_unknown (serverName : Str) (composeService : Service)
    (deployedServer : MCPServer) (envVars : AList Str) (containerTool : Str) :
    (compareServerConfig serverName composeService deployedServer envVars
      containerTool).1 ≠ "unknown".data := by
  rw [compareServerConfig]
  by_cases hz : deployedServer.command = [] ∧ deployedServer.url = []
  · rw [if_pos hz]
    show ("not-configured".data : Str) ≠ "unknown".data
    decide
  · rw [if_neg hz]
    by_cases hr : IsRemoteServer composeService = true
    · rw [if_pos hr]
      rw [compareRemoteServers]
      simp only []
      exact status_pair_ne_unknown _ _
    · rw [if_neg hr]
      rw [compareLocalServers]
      simp only []
      by_cases himg : composeService.image ≠ []
      · rw [if_pos himg]
        exact status_pair_ne_unknown _ _
      · rw [if_neg himg]
        exact status_pair_ne_unknown _ _

/-- C4 counterexample: a tool whose config file load failed (file present
but unparseable) is reported `not-configured`, not `unknown`: through
`getToolConfigs` a load error sets `Exists: false`, and `getServerStatus`
checks `Exists` before `Error` — as the repository's own
`TestGetServerStatus` expects for its `broken-tool` entry. -/
theorem status_load_error_not_unknown :
    getServerStatus "srv".data { command := "uvx x".data }
      (getToolConfigs
        [("kiro".data, .loadError "/p".data "error parsing config file: bad".data)])
      [] "docker".data =
      [("kiro".data,
        { status := "not-configured".data, tool := "kiro".data,
          configPath := "/p".data })] ∧
    ("not-configured".data : Str) ≠ "unknown".data :=
  ⟨by decide, by decide⟩

/-- C4 (amended): in the composed status pipeline each tool's status is a
function of that tool's own load outcome alone (an error for one tool never
changes another's status); a tool whose load was reported as an error gets
status `not-configured` — the error path of `getToolConfigs` stores
`Exists: false`, which `getServerStatus` checks before `Error` — and the
status `unknown` is unreachable through `getToolConfigs` for every load
outcome (it would require `Exists: true` together with a non-empty
`Error`, a combination `getToolConfigs` never produces). -/
theorem getServerStatus_per_tool (serverName : Str) (composeService : Service)
    (tools : List (Str × LoadOutcome)) (envVars : AList Str) (containerTool : Str) :
    getServerStatus serverName composeService (getToolConfigs tools) envVars containerTool =
      tools.map (fun kv => (kv.1,
        serverStatusFor serverName composeService kv.1 (toolConfigOf kv.1 kv.2)
          envVars containerTool)) ∧
    (∀ (tool path msg : Str),
      (serverStatusFor serverName composeService tool (toolConfigOf tool (.loadError path msg))
        envVars containerTool).status = "not-configured".data) ∧
    (∀ (tool : Str) (o : LoadOutcome),
      (serverStatusFor serverName composeService tool (toolConfigOf tool o)
        envVars containerTool).status ≠ "unknown".data) := by
  refine ⟨?_, ?_, ?_⟩
  · rw [getServerStatus, getToolConfigs, List.map_map]
    rfl
  · intro tool path msg
    rfl
  · intro tool o
    cases o with
    | unknownTool =>
      show ("not-configured".data : Str) ≠ "unknown".data
      decide
    | missing path =>
      show ("not-configured".data : Str) ≠ "unknown".data
      decide
    | loadError path msg =>
      show ("not-configured".data : Str) ≠ "unknown".data
      decide
    | loaded path cfg =>
      rw [serverStatusFor, toolConfigOf]
      by_cases hp : path.isEmpty
      · rw [if_pos (by simp [hp])]
        show ("not-configured".data : Str) ≠ "unknown".data
        decide
      · rw [if_neg (by simp [hp])]
        rw [if_neg (by simp)]
        cases hl : lookupAL cfg serverName with
        | none =>
          show ("not-configured".data : Str) ≠ "unknown".data
          decide
        | some deployedServer =>
          simp only []
          exact compareServerConfig_status_ne_unknown serverName composeService
            deployedServer envVars containerTool

/-- C4 (amended) witness: one errored tool and one loaded tool — the
errored tool reads `not-configured`, per-tool decomposition holds, and no
outcome yields `unknown`. -/
theorem getServerStatus_per_tool_witness :
    getServerStatus "srv".data { command := "uvx x".data }
      (getToolConfigs
        [("kiro".data, .loadError "/p".data "error parsing config file: bad".data),
          ("cursor".data, .loaded "/q".data [])])
      [] "docker".data =
      [("kiro".data, .loadError "/p".data "error parsing config file: bad".data),
        ("cursor".data, .loaded "/q".data [])].map (fun kv => (kv.1,
          serverStatusFor "srv".data { command := "uvx x".data } kv.1
            (toolConfigOf kv.1 kv.2) [] "docker".data)) ∧
    (serverStatusFor "srv".data { command := "uvx x".data } "kiro".data
      (toolConfigOf "kiro".data
        (.loadError "/p".data "error parsing config file: bad".data))
      [] "docker".data).status = "not-configured".data ∧
    (serverStatusFor "srv".data { command := "uvx x".data } "cursor".data
      (toolConfigOf "cursor".data (.loaded "/q".data []))
      [] "docker".data).status ≠ "unknown".data :=
  ⟨(getServerStatus_per_tool "srv".data { command := "uvx x".data } _ [] "docker".data).1,
    (getServerStatus_per_tool "srv".data { command := "uvx x".data } [] []
      "docker".data).2.1 "kiro".data "/p".data "error parsing config file: bad".data,
    (getServerStatus_per_tool "srv".data { command := "uvx x".data } [] []
      "docker".data).2.2 "cursor".data (.loaded "/q".data [])⟩

/-! ## Claim C5: all-or-nothing translation in the `set` pipeline -/

/-- C5: if header extraction, OAuth config extraction, or OAuth token
acquisition fails for any service of the filtered set, the `set` pipeline
aborts before the write step (`none`): no output document is produced, so
the previously deployed output file is never replaced by a partial
document. -/
theorem set_aborts_before_write
    (services : AList Service) (profile : Str) (envVars : AList Str)
    (toolShortcut containerTool : Str) (acquire : Str → OAuthConfig → Except Str Str)
    (name : Str) (service : Service)
    (hmem : (name, service) ∈ filterServers services profile false)
    (hrem : IsRemoteServerWithEnvExpansion service envVars = true)
    (hfail :
      (UsesHeadersAuth service = true ∧
        ∃ e, ExtractHeaders service (mergeServiceEnv service envVars) = .error e) ∨
      (UsesHeadersAuth service = false ∧
        ((∃ e, ExtractOAuthConfig service (mergeServiceEnv service envVars) = .error e) ∨
         (∃ cfg, ExtractOAuthConfig service (mergeServiceEnv service envVars) = .ok cfg ∧
           ∃ e, acquire name cfg = .error e)))) :
    setPipelineWrites services profile envVars toolShortcut containerTool acquire = none := by
  have hconv : ∃ e, convertService containerTool acquire name service envVars = .error e := by
    rw [convertService, if_pos hrem]
    simp only []
    rcases hfail with ⟨hH, e, he⟩ | ⟨hH, hoa⟩
    · rw [if_pos hH, he]
      exact ⟨_, rfl⟩
    · rw [if_neg (by rw [hH]; exact fun hc => Bool.noConfusion hc)]
      rcases hoa with ⟨e, he⟩ | ⟨cfg, hcfg, e, he⟩
      · rw [he]
        exact ⟨_, rfl⟩
      · rw [hcfg]
        simp only []
        rw [he]
        exact ⟨_, rfl⟩
  rw [setPipelineWrites]
  by_cases hval : (filterServers services profile false).any (fun kv =>
      IsRemoteServerWithEnvExpansion kv.2 envVars &&
        (ValidateRemoteServerAuth kv.1 kv.2).isSome) = true
  · rw [if_pos hval]
  · rw [if_neg hval]
    by_cases hts : (ValidateToolSupportWithEnvExpansion toolShortcut
        (filterServers services profile false) envVars).isSome = true
    · rw [if_pos hts]
    · rw [if_neg hts]
      rcases convertToMCPConfig_error_of_mem hmem hconv with ⟨e, he⟩
      rw [he]

/-- C5 witness: a default-profile remote service whose only header value
cannot be resolved makes the whole `set` pipeline produce no output
document. -/
theorem set_aborts_before_write_witness :
    setPipelineWrites
      [("r".data,
        { command := "https://a.example/mcp".data
          labels := [("mcp.header.Auth".data, "Bearer ${UNDEF}".data)] })]
      [] [] [] "docker".data (fun _ _ => .error []) = none :=
  set_aborts_before_write _ [] [] [] "docker".data (fun _ _ => .error [])
    "r".data
    { command := "https://a.example/mcp".data
      labels := [("mcp.header.Auth".data, "Bearer ${UNDEF}".data)] }
    (by decide) (by decide)
    (Or.inl ⟨by decide, ⟨_, rfl⟩⟩)

end MCPCli
